import Mathlib

/-!
# Verification of the stru-replit finite-element core

This file is a shallow embedding, in Lean 4, of the numerical core of the
repository (`backend/app/core/fem_engine.py` and `backend/app/core/solvers.py`),
together with theorems settling the frozen claims about it.

Modelling conventions, used throughout:

* Python floats are modelled as exact rationals (`ℚ`); decimal literals of the
  source are read exactly.  Floating-point rounding is not modelled.
* Fallible Python code is modelled with `Except PyErr`; a value that escapes a
  `try:`/`except:` region models a raised exception.
* `numpy.sqrt` is modelled by `ratSqrt`, which is exact whenever its argument
  is the square of a rational (the only case exercised by concrete inputs in
  this file) and is a nonnegative under-approximation otherwise.
* `numpy.linalg.norm v < t` comparisons are modelled by the equivalent exact
  comparison `0 < t ∧ normSq v < t^2` (both sides of the source comparison are
  nonnegative, so squaring is an equivalence; see the doc comments at the
  point of use).
* `scipy.sparse.linalg.spsolve` is modelled by `spsolve` below: exact Gaussian
  elimination that returns the unique solution when the matrix is invertible
  and raises (models SuperLU's "Factor is exactly singular") otherwise.
  The returned vector is verified against the defining equation, so
  `spsolve A b = .ok x → matVec A x = b` holds by construction.
* `scipy.sparse.linalg.eigsh` is an external iterative eigensolver; functions
  calling it are parameterised by a solver of type `EigSolver`.
* Python `dict`s (keyed by caller-supplied ids) are modelled as
  insertion-ordered association lists; iteration order is list order,
  matching Python 3.7+ dict semantics.  Models used in concrete theorems have
  pairwise distinct ids.
-/

set_option maxRecDepth 100000

namespace Stru

/-- Python exceptions that the embedded code can raise. -/
inductive PyErr where
  | keyError (k : Option Int)
  | indexError
  | valueError (msg : String)
  | zeroDivisionError
  | notImplementedError (msg : String)
  | singularMatrix
deriving DecidableEq, Repr

/-- Abstract rendition of Python `str(e)` for an exception. -/
def pyStr : PyErr → String
  | .keyError (some k) => "KeyError: " ++ toString k
  | .keyError none => "KeyError: None"
  | .indexError => "index out of range"
  | .valueError m => m
  | .zeroDivisionError => "division by zero"
  | .notImplementedError m => m
  | .singularMatrix => "Factor is exactly singular"

/-- Computations that may raise a Python exception. -/
abbrev Exc (α : Type) := Except PyErr α

deriving instance DecidableEq for Except

@[simp] theorem exc_bind_ok (a : α) (f : α → Exc β) :
    (Except.ok a : Exc α) >>= f = f a := rfl

@[simp] theorem exc_bind_error (e : PyErr) (f : α → Exc β) :
    (Except.error e : Exc α) >>= f = .error e := rfl

@[simp] theorem exc_pure_eq_ok (a : α) : (pure a : Exc α) = .ok a := rfl

@[simp] theorem exc_error_ne_ok (e : PyErr) (a : α) :
    ((Except.error e : Exc α) = .ok a) ↔ False := by
  constructor
  · intro h
    cases h
  · intro h
    cases h

/-- Python `d[k]` on an id-keyed dict: first matching entry, else `KeyError`. -/
def dictGet (l : List (Int × α)) (k : Int) : Exc α :=
  match l.find? (fun p => p.1 == k) with
  | some p => .ok p.2
  | none => .error (.keyError (some k))

/-- Python `d.get(k)`: first matching entry or `None`. -/
def dictFind (l : List (Int × α)) (k : Int) : Option α :=
  (l.find? (fun p => p.1 == k)).map Prod.snd

/-- Python `l[i]` for a nonnegative index: `IndexError` when out of range. -/
def listGet (l : List α) (i : Nat) : Exc α :=
  match l.get? i with
  | some x => .ok x
  | none => .error .indexError

/-- Python `l[i]` with possibly negative index (counted from the end). -/
def pyIndex (l : List α) (i : Int) : Exc α :=
  let j : Int := if i < 0 then (l.length : Int) + i else i
  if 0 ≤ j ∧ j < (l.length : Int) then listGet l j.toNat else .error .indexError

/-- Exact model of `numpy.sqrt` on the rationals: precise whenever the
argument is the square of a rational, a nonnegative floor-style
under-approximation otherwise.  All concrete inputs used in this file have
perfect-square arguments. -/
def ratSqrt (q : ℚ) : ℚ :=
  mkRat (Nat.sqrt q.num.toNat) (Nat.sqrt q.den)

/-! ## Dense exact linear algebra over `ℚ`

Matrices are lists of rows; shapes are run-time data, as in numpy, because one
of the source defects is precisely a shape mismatch. -/

/-- Vectors are lists of rationals. -/
abbrev Vec := List ℚ

/-- Matrices are lists of rows. -/
abbrev Mat := List (List ℚ)

/-- Dot product (truncating at the shorter list, as `zip` does). -/
def dot (a b : Vec) : ℚ := (List.zipWith (· * ·) a b).sum

/-- Matrix–vector product. -/
def matVec (A : Mat) (v : Vec) : Vec := A.map (fun r => dot r v)

/-- Entrywise vector sum. -/
def vAdd (a b : Vec) : Vec := List.zipWith (· + ·) a b

/-- Entrywise vector difference. -/
def vSub (a b : Vec) : Vec := List.zipWith (· - ·) a b

/-- Scalar multiple of a vector. -/
def vScale (c : ℚ) (v : Vec) : Vec := v.map (fun x => c * x)

/-- Squared Euclidean norm. -/
def normSq (v : Vec) : ℚ := (v.map (fun x => x * x)).sum

/-- Zero vector. -/
def zerosVec (n : Nat) : Vec := List.replicate n 0

/-- Zero matrix. -/
def zerosMat (n m : Nat) : Mat := List.replicate n (zerosVec m)

/-- Identity matrix. -/
def idMat (n : Nat) : Mat :=
  (List.range n).map (fun i => (List.range n).map (fun j => if i = j then (1 : ℚ) else 0))

/-- Matrix entry, reading 0 outside the stored shape. -/
def mget (A : Mat) (i j : Nat) : ℚ := (A.getD i []).getD j 0

/-- Column of a matrix. -/
def colGet (A : Mat) (j : Nat) : Vec := A.map (fun r => r.getD j 0)

/-- Matrix product (numpy `@` on well-formed shapes). -/
def matMul (A B : Mat) : Mat :=
  A.map (fun r => (List.range (B.headD []).length).map (fun k => dot r (colGet B k)))

/-- Matrix transpose. -/
def matTranspose (A : Mat) : Mat :=
  (List.range ((A.headD []).length)).map (fun j => colGet A j)

/-- Entrywise matrix sum. -/
def matAdd (A B : Mat) : Mat := List.zipWith vAdd A B

/-- Scalar multiple of a matrix. -/
def matScale (c : ℚ) (A : Mat) : Mat := A.map (vScale c)

/-- Replace element `i` of a list by `f` of it; no-op when out of range. -/
def modAt (l : List α) (i : Nat) (f : α → α) : List α :=
  match l, i with
  | [], _ => []
  | x :: xs, 0 => f x :: xs
  | x :: xs, i + 1 => x :: modAt xs i f

/-- `v[d] += c` on a vector. -/
def vecAddAt (v : Vec) (d : Nat) (c : ℚ) : Vec := modAt v d (fun x => x + c)

/-- `A[d, d] += c` on a matrix. -/
def matAddDiag (A : Mat) (d : Nat) (c : ℚ) : Mat :=
  modAt A d (fun r => modAt r d (fun x => x + c))

/-- Trace of a matrix. -/
def traceM (A : Mat) : ℚ := ((List.range A.length).map (fun i => mget A i i)).sum

/-- `float(np.max(np.abs(v)))`: raises `ValueError` on an empty array. -/
def maxAbs (v : Vec) : Exc ℚ :=
  match v with
  | [] => .error (.valueError "zero-size array to reduction operation maximum")
  | x :: xs => .ok (xs.foldl (fun m y => max m |y|) |x|)

/-! ### Basic lemmas about the list linear algebra -/

theorem modAt_length (l : List α) (i : Nat) (f : α → α) :
    (modAt l i f).length = l.length := by
  induction l generalizing i with
  | nil => rfl
  | cons x xs ih =>
    cases i with
    | zero => rfl
    | succ j => simpa [modAt] using ih j

theorem modAt_getD (l : List α) (i : Nat) (f : α → α) (j : Nat) (d : α) :
    (modAt l i f).getD j d =
      if j = i ∧ i < l.length then f (l.getD i d) else l.getD j d := by
  induction l generalizing i j with
  | nil => simp [modAt]
  | cons x xs ih =>
    cases i with
    | zero =>
      cases j with
      | zero => simp [modAt]
      | succ j0 => simp [modAt]
    | succ i0 =>
      cases j with
      | zero => simp [modAt]
      | succ j0 =>
        have h2 := ih i0 j0
        simp only [modAt, List.getD_cons_succ, List.length_cons, h2]
        by_cases h1 : j0 = i0 ∧ i0 < xs.length
        · simp [h1.1, h1.2, Nat.succ_lt_succ h1.2]
        · have hneg : ¬(j0 + 1 = i0 + 1 ∧ i0 + 1 < xs.length + 1) := fun hc =>
            h1 ⟨Nat.succ_injective hc.1, Nat.lt_of_succ_lt_succ hc.2⟩
          simp [h1, hneg]

theorem vSub_length (a b : Vec) : (vSub a b).length = min a.length b.length := by
  simp [vSub]

theorem vAdd_length (a b : Vec) : (vAdd a b).length = min a.length b.length := by
  simp [vAdd]

theorem vScale_length (c : ℚ) (v : Vec) : (vScale c v).length = v.length := by
  simp [vScale]

theorem matVec_length (A : Mat) (v : Vec) : (matVec A v).length = A.length := by
  simp [matVec]

theorem vecAddAt_length (v : Vec) (d : Nat) (c : ℚ) :
    (vecAddAt v d c).length = v.length := modAt_length ..

theorem matAddDiag_length (A : Mat) (d : Nat) (c : ℚ) :
    (matAddDiag A d c).length = A.length := modAt_length ..

/-- Adding vectors of equal length distributes over the dot product. -/
theorem dot_add_left (a b u : Vec) (h : a.length = b.length) :
    dot a u + dot b u = dot (vAdd a b) u := by
  induction a generalizing b u with
  | nil =>
    cases b with
    | nil => simp [dot, vAdd]
    | cons y ys => simp at h
  | cons x xs ih =>
    cases b with
    | nil => simp at h
    | cons y ys =>
      cases u with
      | nil => simp [dot, vAdd]
      | cons z zs =>
        have hh : xs.length = ys.length := by simpa using h
        have := ih ys zs hh
        simp only [dot, vAdd, List.zipWith_cons_cons, List.sum_cons] at this ⊢
        linarith [this]

/-- The dot product with a zero vector vanishes. -/
theorem dot_zeros (n : Nat) (u : Vec) : dot (zerosVec n) u = 0 := by
  induction n generalizing u with
  | zero => simp [dot, zerosVec]
  | succ m ih =>
    cases u with
    | nil => simp [dot]
    | cons x xs =>
      simpa [dot, zerosVec, List.replicate_succ] using ih xs

/-- `normSq` is a sum of squares, hence nonnegative. -/
theorem normSq_nonneg (v : Vec) : 0 ≤ normSq v := by
  induction v with
  | nil => simp [normSq]
  | cons x xs ih =>
    simp only [normSq, List.map_cons, List.sum_cons] at ih ⊢
    nlinarith [sq_nonneg x, ih]

/-! ## Model of `scipy.sparse.linalg.spsolve`

Gauss–Jordan inversion over `ℚ`.  The candidate inverse is verified against
the defining identities before being accepted, so correctness of solutions is
by construction and no correctness proof of the elimination itself is
needed. -/

/-- One Gauss–Jordan column step (pivot search from row `col` downwards). -/
def gjStep (rows : Mat) (col : Nat) : Option Mat :=
  match (rows.drop col).findIdx? (fun r => r.getD col 0 != 0) with
  | none => none
  | some k =>
    let p := col + k
    let rcol := rows.getD col []
    let rp := rows.getD p []
    let rows1 := List.set (List.set rows col rp) p rcol
    let pr := rows1.getD col []
    let pv := pr.getD col 0
    let prn := vScale pv⁻¹ pr
    some ((List.range rows1.length).map (fun i =>
      if i = col then prn
      else
        let r := rows1.getD i []
        vSub r (vScale (r.getD col 0) prn)))

/-- Run Gauss–Jordan steps on all columns. -/
def gjRun (rows : Mat) : List Nat → Option Mat
  | [] => some rows
  | c :: cs => match gjStep rows c with
    | none => none
    | some rows2 => gjRun rows2 cs

/-- Shape check: a square `n × n` list matrix. -/
def isSquare (n : Nat) (A : Mat) : Bool :=
  A.length == n && A.all (fun r => r.length == n)

/-- Exact matrix inverse via Gauss–Jordan on the augmented matrix, with the
result verified against both defining identities (so facts extracted from
`matInv A = some W` need no correctness proof of the elimination). -/
def matInv (A : Mat) : Option Mat :=
  let n := A.length
  let aug := List.zipWith (· ++ ·) A (idMat n)
  match gjRun aug (List.range n) with
  | none => none
  | some rows =>
    let W := rows.map (List.drop n)
    if isSquare n A ∧ isSquare n W ∧ matMul A W = idMat n ∧ matMul W A = idMat n
    then some W else none

/-- Facts guaranteed by a successful `matInv`. -/
theorem matInv_spec (A W : Mat) (h : matInv A = some W) :
    isSquare A.length A = true ∧ isSquare A.length W = true ∧
      matMul A W = idMat A.length ∧ matMul W A = idMat A.length := by
  unfold matInv at h
  cases hg : gjRun (List.zipWith (· ++ ·) A (idMat A.length)) (List.range A.length) with
  | none => simp [hg] at h
  | some rows =>
    simp only [hg] at h
    by_cases hc : isSquare A.length A ∧ isSquare A.length (rows.map (List.drop A.length)) ∧
        matMul A (rows.map (List.drop A.length)) = idMat A.length ∧
        matMul (rows.map (List.drop A.length)) A = idMat A.length
    · simp only [hc, if_pos] at h
      cases h
      exact ⟨hc.1, hc.2.1, hc.2.2.1, hc.2.2.2⟩
    · simp [hc] at h

/-- Model of `scipy.sparse.linalg.spsolve`: returns the exact solution of
`A · x = b` when `A` is invertible, raises the SuperLU singular-factor error
otherwise.  The result is verified against the defining equation. -/
def spsolve (A : Mat) (b : Vec) : Exc Vec :=
  if b.length = A.length then
    match matInv A with
    | none => .error .singularMatrix
    | some W =>
      let x := matVec W b
      if matVec A x = b then .ok x else .error .singularMatrix
  else .error (.valueError "matrix - rhs dimension mismatch")

/-- A vector returned by the solver model really solves the system. -/
theorem spsolve_solves (A : Mat) (b x : Vec) (h : spsolve A b = .ok x) :
    matVec A x = b := by
  unfold spsolve at h
  by_cases hb : b.length = A.length
  · simp only [hb, if_pos] at h
    cases hi : matInv A with
    | none => simp [hi] at h
    | some W =>
      simp only [hi] at h
      by_cases hx : matVec A (matVec W b) = b
      · simp only [hx, if_pos] at h
        cases h
        exact hx
      · simp [hx] at h
  · simp [hb] at h

/-! ## Data model (`fem_engine.py` dataclasses) -/

/-- `ElementType` enumeration. -/
inductive ElementType where
  | truss | beam | frame | plate | shell | solid
deriving DecidableEq, Repr

/-- `Node` dataclass: coordinates and the active-DOF mask
`[Tx, Ty, Tz, Rx, Ry, Rz]`; `__post_init__` defaults the mask to all-active. -/
structure Node where
  id : Int
  x : ℚ
  y : ℚ
  z : ℚ := 0
  dofs : List Bool := List.replicate 6 true
deriving DecidableEq, Repr

/-- `Material` dataclass. -/
structure Material where
  id : Int
  name : String
  E : ℚ
  nu : ℚ
  rho : ℚ
  fy : Option ℚ := none
  fu : Option ℚ := none
deriving DecidableEq, Repr

/-- Derived shear modulus `G = E / (2 (1 + nu))`. -/
def Material.G (m : Material) : ℚ := m.E / (2 * (1 + m.nu))

/-- `Section` dataclass. -/
structure Section where
  id : Int
  name : String
  A : ℚ
  Ix : ℚ
  Iy : ℚ
  Iz : ℚ
  J : ℚ
  Sy : Option ℚ := none
  Sz : Option ℚ := none
deriving DecidableEq, Repr

/-- `Element` dataclass. -/
structure Element where
  id : Int
  type : ElementType
  nodes : List Int
  material_id : Int
  section_id : Option Int := none
  thickness : Option ℚ := none
deriving DecidableEq, Repr

/-- `Load` dataclass; `__post_init__` defaults `values` to six zeros. -/
structure Load where
  id : Int
  node_id : Option Int := none
  element_id : Option Int := none
  type : String := "force"
  direction : String := "global"
  values : List ℚ := List.replicate 6 0
deriving DecidableEq, Repr

/-- `Constraint` dataclass; `__post_init__` defaults `values` to six zeros. -/
structure Constraint where
  id : Int
  node_id : Int
  dofs : List Bool
  values : List ℚ := List.replicate 6 0
deriving DecidableEq, Repr

/-- The `FEMEngine` model store: insertion-ordered id-keyed dicts plus the two
plain lists.  (The derived analysis state — `K_global`, `displacements`, … —
is rebuilt by every solve and is returned in solver payloads here rather than
mutated in place.) -/
structure Engine where
  nodes : List (Int × Node) := []
  materials : List (Int × Material) := []
  sections : List (Int × Section) := []
  elements : List (Int × Element) := []
  loads : List Load := []
  constraints : List Constraint := []
deriving DecidableEq, Repr

/-- A DOF map: node id → list of global DOF indices (−1 = inactive slot). -/
abbrev DofMap := List (Int × List Int)

/-! ## `_setup_dof_mapping` -/

/-- Per-node inner loop of `_setup_dof_mapping`: walk the mask, assigning the
running counter to active slots and −1 to inactive ones.  Returns the slot
assignment and the updated counter. -/
def setupNodeDofs (c : Nat) : List Bool → List Int × Nat
  | [] => ([], c)
  | active :: rest =>
    if active then
      let (l, c2) := setupNodeDofs (c + 1) rest
      ((c : Int) :: l, c2)
    else
      let (l, c2) := setupNodeDofs c rest
      ((-1 : Int) :: l, c2)

/-- Outer loop of `_setup_dof_mapping` over nodes in insertion order. -/
def setupDofLoop (c : Nat) : List (Int × Node) → DofMap × Nat
  | [] => ([], c)
  | (nid, nd) :: rest =>
    ((nid, (setupNodeDofs c nd.dofs).1) ::
        (setupDofLoop (setupNodeDofs c nd.dofs).2 rest).1,
      (setupDofLoop (setupNodeDofs c nd.dofs).2 rest).2)

/-- `_setup_dof_mapping`: returns the DOF map and `total_dofs`. -/
def setupDofMapping (nodes : List (Int × Node)) : DofMap × Nat :=
  setupDofLoop 0 nodes

/-- Claim-side description of the flat DOF assignment: slot `p` of the
concatenated mask stream gets the number of active slots strictly before it
when active, and −1 otherwise. -/
def dofSpecAssign (s : Nat) (masks : List Bool) : List Int :=
  (List.range masks.length).map (fun p =>
    if masks.getD p false then ((s + (masks.take p).count true : Nat) : Int) else -1)

theorem setupNodeDofs_counter (c : Nat) (m : List Bool) :
    (setupNodeDofs c m).2 = c + m.count true := by
  induction m generalizing c with
  | nil => simp [setupNodeDofs]
  | cons b rest ih =>
    cases b with
    | true =>
      simp only [setupNodeDofs, if_pos, List.count_cons]
      rw [ih (c + 1)]
      simp only [beq_self_eq_true, if_true, cond_true]
      omega
    | false =>
      simp only [setupNodeDofs, if_neg, List.count_cons]
      rw [ih c]
      simp

theorem setupNodeDofs_slots (c : Nat) (m : List Bool) :
    (setupNodeDofs c m).1 = dofSpecAssign c m := by
  induction m generalizing c with
  | nil => simp [setupNodeDofs, dofSpecAssign]
  | cons b rest ih =>
    have hrange : List.range (b :: rest).length = 0 :: (List.range rest.length).map (· + 1) :=
      List.range_succ_eq_map rest.length
    cases b with
    | true =>
      simp only [setupNodeDofs, if_pos]
      rw [ih (c + 1)]
      simp only [dofSpecAssign, hrange, List.map_cons, List.map_map]
      congr 1 <;> simp <;> (intro p hp) <;> split <;> push_cast <;> omega
    | false =>
      simp only [setupNodeDofs, if_neg]
      rw [ih c]
      simp only [dofSpecAssign, hrange, List.map_cons, List.map_map]
      congr 1

/-- `dofSpecAssign` splits over concatenated mask streams. -/
theorem dofSpecAssign_append (s : Nat) (m1 m2 : List Bool) :
    dofSpecAssign s (m1 ++ m2) =
      dofSpecAssign s m1 ++ dofSpecAssign (s + m1.count true) m2 := by
  induction m1 generalizing s with
  | nil => simp [dofSpecAssign]
  | cons b rest ih =>
    have h1 : (setupNodeDofs s (b :: rest ++ m2)).1 = dofSpecAssign s (b :: rest ++ m2) :=
      setupNodeDofs_slots ..
    cases b with
    | true =>
      have lhs : dofSpecAssign s (true :: (rest ++ m2)) =
          (s : Int) :: dofSpecAssign (s + 1) (rest ++ m2) := by
        rw [← setupNodeDofs_slots, ← setupNodeDofs_slots]
        simp [setupNodeDofs]
      have rhs : dofSpecAssign s (true :: rest) = (s : Int) :: dofSpecAssign (s + 1) rest := by
        rw [← setupNodeDofs_slots, ← setupNodeDofs_slots]
        simp [setupNodeDofs]
      simp only [List.cons_append, lhs, rhs, ih (s + 1), List.count_cons]
      simp only [beq_self_eq_true, if_true, cond_true]
      have : s + 1 + rest.count true = s + (rest.count true + 1) := by omega
      simp [this]
    | false =>
      have lhs : dofSpecAssign s (false :: (rest ++ m2)) =
          (-1 : Int) :: dofSpecAssign s (rest ++ m2) := by
        rw [← setupNodeDofs_slots, ← setupNodeDofs_slots]
        simp [setupNodeDofs]
      have rhs : dofSpecAssign s (false :: rest) = (-1 : Int) :: dofSpecAssign s rest := by
        rw [← setupNodeDofs_slots, ← setupNodeDofs_slots]
        simp [setupNodeDofs]
      simp only [List.cons_append, lhs, rhs, ih s, List.count_cons]
      simp

theorem setupDofLoop_spec (c : Nat) (nodes : List (Int × Node)) :
    (setupDofLoop c nodes).2 = c + ((nodes.map (fun p => p.2.dofs.count true)).sum) ∧
    (setupDofLoop c nodes).1.map Prod.fst = nodes.map Prod.fst ∧
    ((setupDofLoop c nodes).1.map Prod.snd).flatten =
      dofSpecAssign c ((nodes.map (fun p => p.2.dofs)).flatten) := by
  induction nodes generalizing c with
  | nil => simp [setupDofLoop, dofSpecAssign]
  | cons p rest ih =>
    obtain ⟨nid, nd⟩ := p
    have hs := setupNodeDofs_slots c nd.dofs
    have hc := setupNodeDofs_counter c nd.dofs
    simp only [setupDofLoop, List.map_cons, List.sum_cons, List.flatten_cons, hs, hc]
    have ihr := ih (c + nd.dofs.count true)
    refine ⟨?_, ?_, ?_⟩
    · rw [ihr.1]
      omega
    · simpa using ihr.2.1
    · rw [ihr.2.2, dofSpecAssign_append]

/-! ## Element stiffness kernels -/

/-- `A[i][j] = v` on a list matrix (Python item assignment). -/
def mset (A : Mat) (i j : Nat) (v : ℚ) : Mat := modAt A i (fun r => List.set r j v)

/-- Apply a sequence of `A[i][j] = v` assignments. -/
def msetAll (A : Mat) (entries : List (Nat × Nat × ℚ)) : Mat :=
  entries.foldl (fun B e => mset B e.1 e.2.1 e.2.2) A

/-- `_truss_stiffness`: 2-node axial bar.  Returns the element matrix in
global coordinates together with the element's global DOF index list.
Note the source returns a **6×6** matrix (3 translational DOFs per node)
while the DOF list has 12 entries (6 per node). -/
def trussStiffness (eng : Engine) (dofMap : DofMap) (e : Element) :
    Exc (Mat × List Int) := do
  let n1id ← listGet e.nodes 0
  let n2id ← listGet e.nodes 1
  let node1 ← dictGet eng.nodes n1id
  let node2 ← dictGet eng.nodes n2id
  let material ← dictGet eng.materials e.material_id
  let sid ← match e.section_id with
    | some s => Except.ok s
    | none => Except.error (.keyError none)
  let sec ← dictGet eng.sections sid
  let dx := node2.x - node1.x
  let dy := node2.y - node1.y
  let dz := node2.z - node1.z
  let L := ratSqrt (dx ^ 2 + dy ^ 2 + dz ^ 2)
  if L = 0 then Except.error .zeroDivisionError else do
  let cx := dx / L
  let cy := dy / L
  let cz := dz / L
  -- k_local = (E·A/L) · [[1, −1], [−1, 1]]
  let k := material.E * sec.A / L
  -- transformation matrix exactly as assigned in the source
  let T : Mat :=
    [[cx, cy, cz, 0, 0, 0],
     [-cy, cx, 0, 0, 0, 0],
     [-cz, 0, cx, 0, 0, 0],
     [0, 0, 0, cx, cy, cz],
     [0, 0, 0, -cy, cx, 0],
     [0, 0, 0, -cz, 0, cx]]
  -- k_expanded: entries (0,0), (3,3) = k_local[0,0]; (0,3), (3,0) = k_local[0,1]
  let kExpanded : Mat :=
    [[k, 0, 0, -k, 0, 0],
     [0, 0, 0, 0, 0, 0],
     [0, 0, 0, 0, 0, 0],
     [-k, 0, 0, k, 0, 0],
     [0, 0, 0, 0, 0, 0],
     [0, 0, 0, 0, 0, 0]]
  let kGlobal := matMul (matMul (matTranspose T) kExpanded) T
  let dofLists ← e.nodes.mapM (fun nid => dictGet dofMap nid)
  return (kGlobal, dofLists.flatten)

/-- `_beam_stiffness`: 12×12 Euler–Bernoulli beam; the source's transformation
matrix is the identity ("would need proper transformation"). -/
def beamStiffness (eng : Engine) (dofMap : DofMap) (e : Element) :
    Exc (Mat × List Int) := do
  let n1id ← listGet e.nodes 0
  let n2id ← listGet e.nodes 1
  let node1 ← dictGet eng.nodes n1id
  let node2 ← dictGet eng.nodes n2id
  let material ← dictGet eng.materials e.material_id
  let sid ← match e.section_id with
    | some s => Except.ok s
    | none => Except.error (.keyError none)
  let sec ← dictGet eng.sections sid
  let dx := node2.x - node1.x
  let dy := node2.y - node1.y
  let dz := node2.z - node1.z
  let L := ratSqrt (dx ^ 2 + dy ^ 2 + dz ^ 2)
  if L = 0 then Except.error .zeroDivisionError else do
  let E := material.E
  let G := material.G
  let A := sec.A
  let Iy := sec.Iy
  let Iz := sec.Iz
  let J := sec.J
  let EIyL3 := E * Iy / L ^ 3
  let EIzL3 := E * Iz / L ^ 3
  let kLocal := msetAll (zerosMat 12 12) [
    -- axial terms
    (0, 0, E * A / L), (6, 6, E * A / L), (0, 6, -(E * A) / L), (6, 0, -(E * A) / L),
    -- bending about y (xz plane)
    (2, 2, 12 * EIyL3), (8, 8, 12 * EIyL3), (2, 8, -12 * EIyL3), (8, 2, -12 * EIyL3),
    (4, 4, 4 * E * Iy / L), (10, 10, 4 * E * Iy / L),
    (4, 10, 2 * E * Iy / L), (10, 4, 2 * E * Iy / L),
    (2, 4, 6 * E * Iy / L ^ 2), (4, 2, 6 * E * Iy / L ^ 2),
    (2, 10, 6 * E * Iy / L ^ 2), (10, 2, 6 * E * Iy / L ^ 2),
    (8, 4, -6 * E * Iy / L ^ 2), (4, 8, -6 * E * Iy / L ^ 2),
    (8, 10, -6 * E * Iy / L ^ 2), (10, 8, -6 * E * Iy / L ^ 2),
    -- bending about z (xy plane)
    (1, 1, 12 * EIzL3), (7, 7, 12 * EIzL3), (1, 7, -12 * EIzL3), (7, 1, -12 * EIzL3),
    (5, 5, 4 * E * Iz / L), (11, 11, 4 * E * Iz / L),
    (5, 11, 2 * E * Iz / L), (11, 5, 2 * E * Iz / L),
    (1, 5, -6 * E * Iz / L ^ 2), (5, 1, -6 * E * Iz / L ^ 2),
    (1, 11, -6 * E * Iz / L ^ 2), (11, 1, -6 * E * Iz / L ^ 2),
    (7, 5, 6 * E * Iz / L ^ 2), (5, 7, 6 * E * Iz / L ^ 2),
    (7, 11, 6 * E * Iz / L ^ 2), (11, 7, 6 * E * Iz / L ^ 2),
    -- torsion
    (3, 3, G * J / L), (9, 9, G * J / L), (3, 9, -(G * J) / L), (9, 3, -(G * J) / L)]
  let T := idMat 12
  let kGlobal := matMul (matMul (matTranspose T) kLocal) T
  let dofLists ← e.nodes.mapM (fun nid => dictGet dofMap nid)
  return (kGlobal, dofLists.flatten)

/-- `_frame_stiffness` delegates to the beam kernel. -/
def frameStiffness (eng : Engine) (dofMap : DofMap) (e : Element) :
    Exc (Mat × List Int) :=
  beamStiffness eng dofMap e

/-- `_get_element_stiffness_matrix` dispatch. -/
def getElementStiffness (eng : Engine) (dofMap : DofMap) (e : Element) :
    Exc (Mat × List Int) :=
  match e.type with
  | .truss => trussStiffness eng dofMap e
  | .beam => beamStiffness eng dofMap e
  | .frame => frameStiffness eng dofMap e
  | _ => .error (.notImplementedError "element type not implemented")

/-! ## Assembly -/

/-- `scipy.sparse.csr_matrix((data, (rows, cols)), shape=(n, n))`: raises
`ValueError` when the three arrays differ in length or an index is out of
bounds, and sums duplicate entries. -/
def cooMatrix (n : Nat) (data : List ℚ) (rows cols : List Nat) : Exc Mat :=
  if data.length = rows.length ∧ data.length = cols.length then
    if rows.all (fun i => decide (i < n)) ∧ cols.all (fun j => decide (j < n)) then
      .ok ((data.zip (rows.zip cols)).foldl
        (fun M t => modAt M t.2.1 (fun r => modAt r t.2.2 (fun x => x + t.1))) (zerosMat n n))
    else .error (.valueError "index out of bounds")
  else .error (.valueError "row, column, and data array must all be the same length")

/-- `_assemble_global_stiffness`: accumulate per-element COO blocks built from
the meshgrid of active DOF indices. -/
def assembleGlobalStiffness (eng : Engine) (dofMap : DofMap) (totalDofs : Nat) :
    Exc Mat :=
  eng.elements.foldlM (fun K p => do
    let (kElem, dofs) ← getElementStiffness eng dofMap p.2
    let active := (dofs.filter (fun d => decide (0 ≤ d))).map Int.toNat
    if active.isEmpty then pure K
    else do
      let rowsF := (active.map (fun r => List.replicate active.length r)).flatten
      let colsF := (active.map (fun _ => active)).flatten
      let kCoo ← cooMatrix totalDofs kElem.flatten rowsF colsF
      pure (matAdd K kCoo)) (zerosMat totalDofs totalDofs)

/-- `_assemble_global_force`: nodal loads summed into active DOF slots. -/
def assembleGlobalForce (eng : Engine) (dofMap : DofMap) (totalDofs : Nat) :
    Exc Vec :=
  eng.loads.foldlM (fun F load =>
    match load.node_id with
    | none => pure F
    | some nid => do
      let nodeDofs ← dictGet dofMap nid
      pure ((load.values.zip nodeDofs).foldl
        (fun F2 t => if 0 ≤ t.2 then vecAddAt F2 t.2.toNat t.1 else F2) F))
    (zerosVec totalDofs)

/-! ## Constraint application and the static solver -/

/-- The fixed penalty value `1e12` of `_apply_constraints`. -/
def penalty : ℚ := 10 ^ 12

/-- One step of the inner loop of `_apply_constraints`, for
`(i, (constrained, dof))` from `enumerate(zip(constraint.dofs, node_dofs))`:
if `constrained and dof >= 0` add `penalty` to `K[dof, dof]` and
`penalty * values[i]` to `F[dof]` (the scipy/numpy item assignments raise
`IndexError` on an out-of-range index, which we check first). -/
def constraintStep (c : Constraint) (KF : Mat × Vec) (t : Nat × Bool × Int) :
    Exc (Mat × Vec) :=
  if t.2.1 = true ∧ 0 ≤ t.2.2 then do
    let v ← listGet c.values t.1
    let d := t.2.2.toNat
    if d < KF.1.length ∧ d < KF.2.length then
      pure (matAddDiag KF.1 d penalty, vecAddAt KF.2 d (penalty * v))
    else Except.error .indexError
  else pure KF

/-- Inner loop of `_apply_constraints` for one constraint. -/
def applyOneConstraint (c : Constraint) (nodeDofs : List Int) (KF : Mat × Vec) :
    Exc (Mat × Vec) :=
  (c.dofs.zip nodeDofs).enum.foldlM (constraintStep c) KF

/-- `_apply_constraints` (penalty method); operates on copies of `K_global`
and `F_global`, which this pure embedding renders by leaving its arguments
untouched and returning the modified pair. -/
def applyConstraints (constraints : List Constraint) (dofMap : DofMap)
    (K : Mat) (F : Vec) : Exc (Mat × Vec) :=
  constraints.foldlM (fun KF c => do
    let nodeDofs ← dictGet dofMap c.node_id
    applyOneConstraint c nodeDofs KF) (K, F)

/-- Discriminated result of a public solver call: a raised exception escaping
the call, a `{"success": False, "error": msg}` dict, or a success payload. -/
inductive Outcome (α : Type) where
  | raised (e : PyErr)
  | failure (msg : String)
  | success (payload : α)
deriving DecidableEq, Repr

/-- Whether an outcome is a success payload. -/
def Outcome.isSuccess : Outcome α → Bool
  | .success _ => true
  | _ => false

/-- Whether an outcome is a returned error dict. -/
def Outcome.isFailure : Outcome α → Bool
  | .failure _ => true
  | _ => false

/-- Whether an outcome is an exception escaping the call. -/
def Outcome.isRaised : Outcome α → Bool
  | .raised _ => true
  | _ => false

/-- Success payload of `solve_static`, together with the engine state the
solver stores (`K_global`, `F_global`, `displacements`, `reactions`,
`element_forces`). -/
structure StaticSuccess where
  displacements : Vec
  reactions : Vec
  element_forces : List (Int × Vec)
  K_global : Mat
  F_global : Vec
  max_displacement : ℚ
  total_dofs : Nat
deriving DecidableEq, Repr

/-- The unguarded phase of `solve_static` (everything before the `try:`):
DOF setup, stiffness and force assembly, constraint application.  An
exception here escapes `solve_static`. -/
def staticPrelude (eng : Engine) : Exc (DofMap × Nat × Mat × Vec × Mat × Vec) := do
  let dm := setupDofMapping eng.nodes
  let K ← assembleGlobalStiffness eng dm.1 dm.2
  let F ← assembleGlobalForce eng dm.1 dm.2
  let KcFc ← applyConstraints eng.constraints dm.1 K F
  return (dm.1, dm.2, K, F, KcFc.1, KcFc.2)

/-- `_calculate_element_forces`. -/
def calculateElementForces (eng : Engine) (dofMap : DofMap) (u : Vec) :
    Exc (List (Int × Vec)) :=
  eng.elements.foldlM (fun acc p => do
    let (kElem, dofs) ← getElementStiffness eng dofMap p.2
    let active := (dofs.filter (fun d => decide (0 ≤ d))).map Int.toNat
    if active.isEmpty then pure acc
    else do
      let uElem ← active.mapM (fun d => listGet u d)
      pure (acc ++ [(p.2.id, matVec kElem uElem)])) []

/-- `solve_static`.  The setup/assembly/constraint phase runs outside the
`try:` — an exception there is `raised`; the solve phase onwards is guarded
and produces a `failure` dict instead.  Reactions are `K_global·u − F_global`
with the **un-penalised** stored matrices. -/
def solve_static (eng : Engine) : Outcome StaticSuccess :=
  match staticPrelude eng with
  | .error e => .raised e
  | .ok (dofMap, total, K, F, Kc, Fc) =>
    match (do
      let u ← spsolve Kc Fc
      let reactions := vSub (matVec K u) F
      let ef ← calculateElementForces eng dofMap u
      let mx ← maxAbs u
      return { displacements := u, reactions := reactions, element_forces := ef,
               K_global := K, F_global := F, max_displacement := mx,
               total_dofs := total } : Exc StaticSuccess) with
    | .error e => .failure (pyStr e)
    | .ok r => .success r

/-! ## Claim C3: DOF-map construction -/

/-- **C3.**  For every model, `_setup_dof_mapping` iterates nodes in insertion
order and their DOF slots in mask order, assigns consecutive integers
starting at 0 to active slots and −1 to inactive slots, and the total DOF
count equals the number of `true` entries across all node masks: the map's
keys are the node ids in insertion order, and the concatenation of its slot
lists is exactly the canonical consecutive numbering (`dofSpecAssign 0`) of
the concatenated mask stream. -/
theorem c3_dof_map_order_and_count (nodes : List (Int × Node)) :
    (setupDofMapping nodes).2 = ((nodes.map (fun p => p.2.dofs.count true)).sum) ∧
    (setupDofMapping nodes).1.map Prod.fst = nodes.map Prod.fst ∧
    ((setupDofMapping nodes).1.map Prod.snd).flatten =
      dofSpecAssign 0 ((nodes.map (fun p => p.2.dofs)).flatten) := by
  have h := setupDofLoop_spec 0 nodes
  simpa [setupDofMapping] using h

/-! ## Claim C1: the axial-truss end-to-end scenario -/

/-- The exact model of end-to-end scenario 1 of the spec: two nodes at
`(0,0,0)` and `(1,0,0)`, node 0 constrained in all six DOFs, node 1 in y, z
and rotations, `E = 2·10¹¹`, `ν = 0.3`, `ρ = 7850`, truss section
`A = 0.01`, load `F_x = 10⁵` on node 1. -/
def c1Engine : Engine where
  nodes := [(0, { id := 0, x := 0, y := 0, z := 0 }),
            (1, { id := 1, x := 1, y := 0, z := 0 })]
  materials := [(1, { id := 1, name := "steel", E := 200000000000, nu := 3/10, rho := 7850 })]
  sections := [(1, { id := 1, name := "bar", A := 1/100, Ix := 0, Iy := 0, Iz := 0, J := 0 })]
  elements := [(1, { id := 1, type := .truss, nodes := [0, 1],
                     material_id := 1, section_id := some 1 })]
  loads := [{ id := 1, node_id := some 1, values := [100000, 0, 0, 0, 0, 0] }]
  constraints := [
    { id := 1, node_id := 0, dofs := [true, true, true, true, true, true] },
    { id := 2, node_id := 1, dofs := [false, true, true, true, true, true] }]

set_option maxRecDepth 100000 in
/-- **C1.**  The claim expects `solve_static` on the axial-truss scenario to
succeed with `u_x(node 1) = 5·10⁻⁵ = PL/(EA)` and `r_x(node 0) = −10⁵`.
The code instead **raises** `ValueError` out of `solve_static`: the truss
kernel returns a 6×6 matrix with a 12-entry DOF list, so
`_assemble_global_stiffness` hands 36 data values and 144 COO indices to
`csr_matrix`, whose length check fails; the assembly runs outside the
solver's `try:` block.  (The claim's expected value `PL/(EA)` is indeed
`5·10⁻⁵`, as the second conjunct records.) -/
theorem c1_axial_truss_scenario_raises :
    solve_static c1Engine =
        .raised (.valueError "row, column, and data array must all be the same length") ∧
      (100000 : ℚ) * 1 / (200000000000 * (1/100)) = 5 / 100000 := by
  constructor
  · with_unfolding_all decide
  · norm_num

/-! ## Lumped mass assembly and modal analysis -/

/-- Innermost loop of `_assemble_global_mass`: `for i in range(3)`, add the
nodal mass to the diagonal at the node's slot `i` when active. -/
def massSlots (nodalMass : ℚ) (nodeDofs : List Int) (slots : List Nat) (M : Mat) :
    Exc Mat :=
  slots.foldlM (fun M3 i => do
    let dof ← listGet nodeDofs i
    if 0 ≤ dof then pure (matAddDiag M3 dof.toNat nodalMass) else pure M3) M

/-- Middle loop of `_assemble_global_mass`: `for node_id in element.nodes`. -/
def massNodes (dofMap : DofMap) (nodalMass : ℚ) (nodeIds : List Int) (M : Mat) :
    Exc Mat :=
  nodeIds.foldlM (fun M2 nid => do
    let nodeDofs ← dictGet dofMap nid
    massSlots nodalMass nodeDofs (List.range 3) M2) M

/-- Per-element body of `_assemble_global_mass`: material lookup (may raise
`KeyError`), section via `dict.get` (skip the element when missing), element
length from the two end nodes, then the nodal-mass accumulation. -/
def massElemStep (eng : Engine) (dofMap : DofMap) (M : Mat) (p : Int × Element) :
    Exc Mat := do
  let e := p.2
  let material ← dictGet eng.materials e.material_id
  match (match e.section_id with
         | none => none
         | some sid => dictFind eng.sections sid) with
  | none => pure M
  | some sec => do
    let n1id ← listGet e.nodes 0
    let n2id ← listGet e.nodes 1
    let node1 ← dictGet eng.nodes n1id
    let node2 ← dictGet eng.nodes n2id
    let dx := node2.x - node1.x
    let dy := node2.y - node1.y
    let dz := node2.z - node1.z
    let L := ratSqrt (dx ^ 2 + dy ^ 2 + dz ^ 2)
    let elementMass := material.rho * sec.A * L
    let nodalMass := elementMass / 2
    massNodes dofMap nodalMass e.nodes M

/-- `_assemble_global_mass`: diagonal lumped mass accumulated element by
element. -/
def assembleGlobalMass (eng : Engine) (dofMap : DofMap) (totalDofs : Nat) :
    Exc Mat :=
  eng.elements.foldlM (massElemStep eng dofMap) (zerosMat totalDofs totalDofs)

/-- Abstract interface of `scipy.sparse.linalg.eigsh(A, k, M, which, sigma)`:
an external iterative eigensolver returning eigenvalues and an eigenvector
matrix, or raising. -/
abbrev EigSolver := Mat → Mat → Nat → Exc (List ℚ × Mat)

/-- The IEEE-754 double nearest π, i.e. the exact value of `numpy.pi`. -/
def npPi : ℚ := 884279719003555 / 281474976710656

/-- Success payload of `solve_modal`. -/
structure ModalSuccess where
  frequencies : List ℚ
  mode_shapes : Mat
  num_modes : Nat
deriving DecidableEq, Repr

/-- `solve_modal`, parameterised by the external eigensolver.  The whole body
is inside `try:`; constraints are **not** applied (the source merely copies
`K_global` and `M_global`).  Frequencies are `sqrt(λ)/(2π)`. -/
def solve_modal (es : EigSolver) (eng : Engine) (numModes : Nat) :
    Outcome ModalSuccess :=
  match (do
    let dm := setupDofMapping eng.nodes
    let K ← assembleGlobalStiffness eng dm.1 dm.2
    let M ← assembleGlobalMass eng dm.1 dm.2
    let Kc := K
    let Mc := M
    let ev ← es Kc Mc numModes
    let frequencies := ev.1.map (fun lam => ratSqrt lam / (2 * npPi))
    return { frequencies := frequencies, mode_shapes := ev.2,
             num_modes := numModes } : Exc ModalSuccess) with
  | .error e => .failure (pyStr e)
  | .ok r => .success r

/-! ## Advanced solvers (`solvers.py`) -/

/-- `_assemble_geometric_stiffness` is a stub returning the zero matrix. -/
def assembleGeometricStiffness (totalDofs : Nat) : Mat :=
  zerosMat totalDofs totalDofs

/-- Success payload of `solve_buckling_analysis`. -/
structure BucklingSuccess where
  critical_loads : List ℚ
  buckling_modes : Mat
  num_modes : Nat
  first_critical_load : ℚ
deriving DecidableEq, Repr

/-- `solve_buckling_analysis`: eigenproblem on `(−K_geo, K_elastic)`; the
inner `try:` converts eigensolver-phase exceptions into an
"Eigenvalue solver failed" error dict, the outer one catches the rest. -/
def solve_buckling_analysis (es : EigSolver) (eng : Engine) (numModes : Nat) :
    Outcome BucklingSuccess :=
  match (do
    let dm := setupDofMapping eng.nodes
    let K ← assembleGlobalStiffness eng dm.1 dm.2
    return (dm.2, K) : Exc (Nat × Mat)) with
  | .error e => .failure (pyStr e)
  | .ok (total, K) =>
    let kGeometric := assembleGeometricStiffness total
    let kElastic := K
    let kGeoConstrained := kGeometric
    match (do
      let ev ← es (matScale (-1) kGeoConstrained) kElastic numModes
      let criticalLoads := ev.1.map (fun l => -l)
      let first ← listGet criticalLoads 0
      return { critical_loads := criticalLoads, buckling_modes := ev.2,
               num_modes := numModes,
               first_critical_load := first } : Exc BucklingSuccess) with
    | .error e => .failure ("Eigenvalue solver failed: " ++ pyStr e)
    | .ok r => .success r

/-- `NonlinearOptions` dataclass with its defaults. -/
structure NonlinearOptions where
  max_iterations : Nat := 50
  tolerance : ℚ := 1 / 1000000
  load_steps : Nat := 10
  line_search : Bool := true
  arc_length : Bool := false
deriving DecidableEq, Repr

/-- `_update_tangent_stiffness`: returns (a copy of) the linear stiffness. -/
def updateTangentStiffness (kGlobal : Mat) : Mat := kGlobal

/-- `_calculate_internal_force`: the linear internal force `K_global · u`. -/
def calculateInternalForce (kGlobal : Mat) (u : Vec) : Vec := matVec kGlobal u

/-- `_apply_constraints_nonlinear`: textually identical loop to
`_apply_constraints`, applied to the tangent matrix and the residual. -/
def applyConstraintsNonlinear (constraints : List Constraint) (dofMap : DofMap)
    (K : Mat) (F : Vec) : Exc (Mat × Vec) :=
  constraints.foldlM (fun KF c => do
    let nodeDofs ← dictGet dofMap c.node_id
    applyOneConstraint c nodeDofs KF) (K, F)

/-- Armijo constant `c1 = 1e-4` of `_line_search`. -/
def armijoC1 : ℚ := 1 / 10000

/-- The acceptance test of `_line_search`, with the source's norm comparison
`‖R(u+αΔu)‖ < (1 − c₁α)·‖R(u)‖` rendered by its exact square: for the tested
step sizes `α ∈ (0, 1]` the factor `1 − c₁α` is positive and both norms are
nonnegative, so the squared comparison is equivalent. -/
def lineSearchCond (kGlobal : Mat) (u du target : Vec)
    (alpha currentResSq : ℚ) : Bool :=
  decide (normSq (vSub target (calculateInternalForce kGlobal (vAdd u (vScale alpha du)))) <
    (1 - armijoC1 * alpha) ^ 2 * currentResSq)

/-- The `for _ in range(10)` contraction loop of `_line_search`. -/
def lineSearchLoop (kGlobal : Mat) (u du target : Vec) (currentResSq : ℚ)
    (alpha : ℚ) : Nat → ℚ
  | 0 => alpha
  | fuel + 1 =>
    if lineSearchCond kGlobal u du target alpha currentResSq then alpha
    else lineSearchLoop kGlobal u du target currentResSq (alpha * (1/2)) fuel

/-- `_line_search`: backtracking from `α = 1`, at most 10 trials. -/
def line_search (kGlobal : Mat) (u du target : Vec) : ℚ :=
  lineSearchLoop kGlobal u du target
    (normSq (vSub target (calculateInternalForce kGlobal u))) 1 10

/-- Result of the Newton iteration loop of one load step. -/
inductive NewtonRes where
  | converged (u : Vec)
  | exhausted (u : Vec)
  | solverFailed (e : PyErr)
  | raisedInner (e : PyErr)
deriving DecidableEq, Repr

/-- The `for iteration in range(max_iterations)` Newton loop of
`solve_nonlinear_static`, with fuel = remaining iterations.  The convergence
test `residual_norm < tolerance` is rendered by its exact equivalent
`0 < tol ∧ normSq R < tol²`. -/
def newtonIter (cs : List Constraint) (dofMap : DofMap) (kGlobal : Mat)
    (target : Vec) (ls : Bool) (tol : ℚ) : Nat → Vec → NewtonRes
  | 0, u => .exhausted u
  | fuel + 1, u =>
    let kTangent := updateTangentStiffness kGlobal
    let residual := vSub target (calculateInternalForce kGlobal u)
    match applyConstraintsNonlinear cs dofMap kTangent residual with
    | .error e => .raisedInner e
    | .ok KcRc =>
      if 0 < tol ∧ normSq KcRc.2 < tol ^ 2 then .converged u
      else
        match spsolve KcRc.1 KcRc.2 with
        | .error e => .solverFailed e
        | .ok du =>
          let u2 := if ls then vAdd u (vScale (line_search kGlobal u du target) du)
                    else vAdd u du
          newtonIter cs dofMap kGlobal target ls tol fuel u2

/-- Success payload of `solve_nonlinear_static`. -/
structure NonlinearSuccess where
  displacements : Vec
  max_displacement : ℚ
  load_factor : ℚ
  load_displacement_curve : List (ℚ × ℚ)
deriving DecidableEq, Repr

/-- The `for step in range(load_steps)` loop of `solve_nonlinear_static`. -/
def loadStepLoop (cs : List Constraint) (dofMap : DofMap) (kGlobal : Mat)
    (F : Vec) (opts : NonlinearOptions) :
    Nat → ℚ → Vec → List (ℚ × ℚ) → Outcome NonlinearSuccess
  | 0, lf, u, curve =>
    match maxAbs u with
    | .error e => .failure (pyStr e)
    | .ok mx => .success { displacements := u, max_displacement := mx,
                           load_factor := lf, load_displacement_curve := curve }
  | steps + 1, lf, u, curve =>
    let lf2 := lf + 1 / (opts.load_steps : ℚ)
    let target := vScale lf2 F
    match newtonIter cs dofMap kGlobal target opts.line_search opts.tolerance
        opts.max_iterations u with
    | .converged u2 =>
      match maxAbs u2 with
      | .error e => .failure (pyStr e)
      | .ok m => loadStepLoop cs dofMap kGlobal F opts steps lf2 u2 (curve ++ [(lf2, m)])
    | .exhausted _ =>
      .failure ("No convergence in " ++ toString opts.max_iterations ++ " iterations")
    | .solverFailed e => .failure ("Solver failed: " ++ pyStr e)
    | .raisedInner e => .failure (pyStr e)

/-- `solve_nonlinear_static`; the whole body is inside `try:`, so every
exception becomes an error dict (`failure`), never a raised exception. -/
def solve_nonlinear_static (eng : Engine) (options : Option NonlinearOptions) :
    Outcome NonlinearSuccess :=
  let opts := options.getD {}
  match (do
    let dm := setupDofMapping eng.nodes
    let K ← assembleGlobalStiffness eng dm.1 dm.2
    let F ← assembleGlobalForce eng dm.1 dm.2
    -- load_increment = 1.0 / options.load_steps
    if opts.load_steps = 0 then Except.error PyErr.zeroDivisionError
    else return (dm, K, F) : Exc ((DofMap × Nat) × Mat × Vec)) with
  | .error e => .failure (pyStr e)
  | .ok (dm, K, F) =>
    loadStepLoop eng.constraints dm.1 K F opts opts.load_steps 0 (zerosVec dm.2) []

/-- `DynamicOptions` dataclass with its defaults. -/
structure DynamicOptions where
  time_step : ℚ := 1 / 100
  total_time : ℚ := 10
  damping_ratio : ℚ := 1 / 20
  integration_method : String := "newmark"
  beta : ℚ := 1 / 4
  gamma : ℚ := 1 / 2
deriving DecidableEq, Repr

/-- `_assemble_rayleigh_damping`: `C = 0·M + (2ζ/100)·K`. -/
def assembleRayleighDamping (M K : Mat) (dampingRatio : ℚ) : Mat :=
  matAdd (matScale 0 M) (matScale (2 * dampingRatio / 100) K)

/-- Newmark constant `a0 = 1/(β·Δt²)`. -/
def nmA0 (beta dt : ℚ) : ℚ := 1 / (beta * dt ^ 2)

/-- Newmark constant `a1 = γ/(β·Δt)`. -/
def nmA1 (gamma beta dt : ℚ) : ℚ := gamma / (beta * dt)

/-- Newmark constant `a2 = 1/(β·Δt)`. -/
def nmA2 (beta dt : ℚ) : ℚ := 1 / (beta * dt)

/-- Newmark constant `a3 = 1/(2β) − 1`. -/
def nmA3 (beta : ℚ) : ℚ := 1 / (2 * beta) - 1

/-- Newmark constant `a4 = γ/β − 1`. -/
def nmA4 (gamma beta : ℚ) : ℚ := gamma / beta - 1

/-- Newmark constant `a5 = (Δt/2)(γ/β − 2)`. -/
def nmA5 (dt gamma beta : ℚ) : ℚ := dt / 2 * (gamma / beta - 2)

/-- The effective stiffness `K* = K + a0·M + a1·C`, formed once before the
Newmark loop. -/
def nmKeff (K M C : Mat) (beta gamma dt : ℚ) : Mat :=
  matAdd (matAdd K (matScale (nmA0 beta dt) M)) (matScale (nmA1 gamma beta dt) C)

/-- The effective force
`F* = F_{i+1} + M(a0·u + a2·v + a3·a) + C(a1·u + a4·v + a5·a)`. -/
def nmEffForce (M C : Mat) (beta gamma dt : ℚ) (fNext u v a : Vec) : Vec :=
  vAdd (vAdd fNext
      (matVec M (vAdd (vAdd (vScale (nmA0 beta dt) u) (vScale (nmA2 beta dt) v))
        (vScale (nmA3 beta) a))))
    (matVec C (vAdd (vAdd (vScale (nmA1 gamma beta dt) u) (vScale (nmA4 gamma beta) v))
      (vScale (nmA5 dt gamma beta) a)))

/-- One Newmark-β time step: clamped force lookup
`force_history[min(i+1, len-1)]`, solve `K*·u' = F*`, then the acceleration
and velocity updates. -/
def newmarkStep (M C Keff : Mat) (beta gamma dt : ℚ) (fh : List Vec) (i : Nat)
    (u v a : Vec) : Exc (Vec × Vec × Vec) := do
  let fNext ← pyIndex fh (min ((i : Int) + 1) ((fh.length : Int) - 1))
  let fEff := nmEffForce M C beta gamma dt fNext u v a
  let uNext ← spsolve Keff fEff
  let aNext := vSub (vSub (vScale (nmA0 beta dt) (vSub uNext u)) (vScale (nmA2 beta dt) v))
    (vScale (nmA3 beta) a)
  let vNext := vAdd v (vScale dt (vAdd (vScale (1 - gamma) a) (vScale gamma aNext)))
  return (uNext, vNext, aNext)

/-- The Newmark time loop, accumulating the histories (stored reversed). -/
def newmarkLoop (M C Keff : Mat) (beta gamma dt : ℚ) (fh : List Vec) :
    Nat → Nat → Vec → Vec → Vec → List Vec → List Vec → List Vec →
      Exc (List Vec × List Vec × List Vec)
  | _, 0, _, _, _, hu, hv, ha => .ok (hu.reverse, hv.reverse, ha.reverse)
  | i, steps + 1, u, v, a, hu, hv, ha => do
    let s ← newmarkStep M C Keff beta gamma dt fh i u v a
    newmarkLoop M C Keff beta gamma dt fh (i + 1) steps s.1 s.2.1 s.2.2
      (s.1 :: hu) (s.2.1 :: hv) (s.2.2 :: ha)

/-- `_newmark_integration` (its own `try:` reports errors as error dicts,
which the caller forwards; modelled by the same `Exc` channel).  The constant
computation `1/(β·Δt²)` raises `ZeroDivisionError` when `β·Δt² = 0`. -/
def newmarkIntegration (kGlobal M C : Mat) (fh : List Vec) (dt beta gamma : ℚ)
    (nSteps : Nat) (u0 v0 a0 : Vec) : Exc (List Vec × List Vec × List Vec) :=
  if beta * dt ^ 2 = 0 then .error .zeroDivisionError
  else
    newmarkLoop M C (nmKeff kGlobal M C beta gamma dt) beta gamma dt fh 0 nSteps
      u0 v0 a0 [u0] [v0] [a0]

/-- The central-difference time loop. -/
def cdLoop (kGlobal C Meff : Mat) (dt : ℚ) (fh : List Vec) :
    Nat → Nat → Vec → Vec → List Vec → List Vec → List Vec →
      Exc (List Vec × List Vec × List Vec)
  | _, 0, _, _, hu, hv, ha => .ok (hu.reverse, hv.reverse, ha.reverse)
  | i, steps + 1, u, v, hu, hv, ha => do
    let fN ← pyIndex fh (min (i : Int) ((fh.length : Int) - 1))
    let fEff := vSub (vSub fN (matVec kGlobal u)) (matVec C v)
    let aN ← spsolve Meff fEff
    let v2 := vAdd v (vScale dt aN)
    let u2 := vAdd u (vScale dt v2)
    cdLoop kGlobal C Meff dt fh (i + 1) steps u2 v2 (u2 :: hu) (v2 :: hv) (aN :: ha)

/-- `_central_difference_integration` with `M* = M + (Δt/2)·C`. -/
def centralDifferenceIntegration (kGlobal M C : Mat) (fh : List Vec) (dt : ℚ)
    (nSteps : Nat) (u0 v0 a0 : Vec) : Exc (List Vec × List Vec × List Vec) :=
  cdLoop kGlobal C (matAdd M (matScale (dt / 2) C)) dt fh 0 nSteps u0 v0
    [u0] [v0] [a0]

/-- Python `int(q)`: truncation toward zero. -/
def pyTrunc (q : ℚ) : Int := if 0 ≤ q then q.floor else -((-q).floor)

/-- `np.linspace 0 t n` (`n` sample points, endpoints included). -/
def pyLinspace (t : ℚ) (n : Nat) : List ℚ :=
  if n ≤ 1 then List.replicate n 0
  else (List.range n).map (fun i => (i : ℚ) * t / (((n - 1 : Nat)) : ℚ))

/-- Success payload of `solve_dynamic_response`. -/
structure DynamicSuccess where
  displacement_history : List Vec
  velocity_history : List Vec
  acceleration_history : List Vec
  time_vector : List ℚ
  max_displacement : ℚ
  max_velocity : ℚ
  max_acceleration : ℚ
  time_step : ℚ
  total_time : ℚ
deriving DecidableEq, Repr

/-- `solve_dynamic_response`; the whole body is inside `try:`, so every
exception becomes an error dict.  `n_steps = int(total_time/time_step)`
raises on a zero step; the history allocation raises on negative dimensions
and the initial-state store raises on a zero-row history. -/
def solve_dynamic_response (eng : Engine) (timeHistoryLoads : List Vec)
    (options : Option DynamicOptions) : Outcome DynamicSuccess :=
  let opts := options.getD {}
  match (do
    let dm := setupDofMapping eng.nodes
    let K ← assembleGlobalStiffness eng dm.1 dm.2
    let M ← assembleGlobalMass eng dm.1 dm.2
    let C := assembleRayleighDamping M K opts.damping_ratio
    if opts.time_step = 0 then Except.error PyErr.zeroDivisionError
    else do
      let nInt := pyTrunc (opts.total_time / opts.time_step)
      if nInt + 1 < 0 then Except.error (.valueError "negative dimensions are not allowed")
      else if nInt + 1 = 0 then Except.error PyErr.indexError
      else do
        let nSteps := nInt.toNat
        let u0 := zerosVec dm.2
        let v0 := zerosVec dm.2
        let F0 := if timeHistoryLoads.length > 0 then timeHistoryLoads.headD []
                  else zerosVec dm.2
        let a0 ← spsolve M (vSub (vSub F0 (matVec C v0)) (matVec K u0))
        let hist ←
          if opts.integration_method = "newmark" then
            newmarkIntegration K M C timeHistoryLoads opts.time_step opts.beta
              opts.gamma nSteps u0 v0 a0
          else if opts.integration_method = "central_difference" then
            centralDifferenceIntegration K M C timeHistoryLoads opts.time_step
              nSteps u0 v0 a0
          else Except.error (.valueError
            ("Unknown integration method: " ++ opts.integration_method))
        let maxd ← maxAbs hist.1.flatten
        let maxv ← maxAbs hist.2.1.flatten
        let maxa ← maxAbs hist.2.2.flatten
        return { displacement_history := hist.1, velocity_history := hist.2.1,
                 acceleration_history := hist.2.2,
                 time_vector := pyLinspace opts.total_time (nSteps + 1),
                 max_displacement := maxd, max_velocity := maxv,
                 max_acceleration := maxa, time_step := opts.time_step,
                 total_time := opts.total_time } : Exc DynamicSuccess) with
  | .error e => .failure (pyStr e)
  | .ok r => .success r

/-! ## Claim C6: modal analysis never reads the constraints -/

/-- **C6.**  `solve_modal` never reads the model's constraint list: two models
identical in nodes, materials, sections, elements and loads but with
different (possibly empty) constraint lists produce identical outcomes —
identical frequencies and mode shapes — for any eigensolver and any requested
mode count.  (The eigensolver is modelled as a deterministic function of the
matrices handed to it.) -/
theorem c6_modal_ignores_constraints (es : EigSolver) (eng : Engine)
    (cs1 cs2 : List Constraint) (numModes : Nat) :
    solve_modal es { eng with constraints := cs1 } numModes =
      solve_modal es { eng with constraints := cs2 } numModes := rfl

/-! ## Claim C2: discriminated outcomes and exception safety -/

/-- A model whose only element references a missing material id 99; every
id lookup during stiffness assembly then raises `KeyError`. -/
def c2Engine : Engine where
  nodes := [(0, { id := 0, x := 0, y := 0, z := 0 }),
            (1, { id := 1, x := 1, y := 0, z := 0 })]
  materials := []
  sections := [(1, { id := 1, name := "s", A := 1, Ix := 0, Iy := 0, Iz := 0, J := 0 })]
  elements := [(1, { id := 1, type := .beam, nodes := [0, 1],
                     material_id := 99, section_id := some 1 })]
  loads := []
  constraints := []

/-- **C2, counterexample.**  The claim says every public solver returns a
discriminated dict for every model and never raises; but `solve_static` on a
model with a dangling material reference raises `KeyError` out of the call
(its DOF-setup/assembly/constraint phase runs before the `try:`). -/
theorem c2_counterexample_static_raises :
    solve_static c2Engine = .raised (.keyError (some 99)) := by
  with_unfolding_all decide

theorem loadStepLoop_not_raised (cs : List Constraint) (dofMap : DofMap)
    (kGlobal : Mat) (F : Vec) (opts : NonlinearOptions) :
    ∀ steps lf u curve,
      (loadStepLoop cs dofMap kGlobal F opts steps lf u curve).isRaised = false := by
  intro steps
  induction steps with
  | zero =>
    intro lf u curve
    unfold loadStepLoop
    cases maxAbs u <;> rfl
  | succ n ih =>
    intro lf u curve
    unfold loadStepLoop
    dsimp only
    split
    · split
      · rfl
      · exact ih ..
    · rfl
    · rfl
    · rfl

/-- **C2, amended.**  The four advanced solvers wrap their whole bodies in
`try:`/`except:` and therefore return a discriminated outcome (success payload
or error dict) for **every** model and input, never raising; `solve_static`
raises exactly when its unguarded DOF-setup/assembly/constraint phase raises
(e.g. on dangling id references), and otherwise returns a discriminated
outcome. -/
theorem c2_solver_outcomes :
    (∀ (es : EigSolver) (eng : Engine) (k : Nat),
        (solve_modal es eng k).isRaised = false) ∧
    (∀ (eng : Engine) (opts : Option NonlinearOptions),
        (solve_nonlinear_static eng opts).isRaised = false) ∧
    (∀ (es : EigSolver) (eng : Engine) (k : Nat),
        (solve_buckling_analysis es eng k).isRaised = false) ∧
    (∀ (eng : Engine) (fh : List Vec) (opts : Option DynamicOptions),
        (solve_dynamic_response eng fh opts).isRaised = false) ∧
    (∀ (eng : Engine) (e : PyErr),
        solve_static eng = .raised e ↔ staticPrelude eng = .error e) := by
  refine ⟨?_, ?_, ?_, ?_, ?_⟩
  · intro es eng k
    unfold solve_modal
    split <;> rfl
  · intro eng opts
    unfold solve_nonlinear_static
    dsimp only
    split
    · rfl
    · exact loadStepLoop_not_raised ..
  · intro es eng k
    unfold solve_buckling_analysis
    split
    · rfl
    · dsimp only
      split <;> rfl
  · intro eng fh opts
    unfold solve_dynamic_response
    dsimp only
    split <;> rfl
  · intro eng e
    unfold solve_static
    cases h : staticPrelude eng with
    | error e2 =>
      simp only [h]
      constructor
      · intro he
        cases he
        rfl
      · intro he
        cases he
        rfl
    | ok pre =>
      obtain ⟨dofMap, total, K, F, Kc, Fc⟩ := pre
      simp only [h]
      constructor
      · intro he
        split at he <;> cases he
      · intro he
        cases he

/-! ## Claim C4: penalty constraint application -/

/-- Claim-side list of `(active global DOF, prescribed value)` pairs named by
one constraint (slots that are constrained and map to an active DOF). -/
def onePairs (vals : List ℚ) : List (Nat × Bool × Int) → Exc (List (Nat × ℚ))
  | [] => .ok []
  | t :: rest =>
    if t.2.1 = true ∧ 0 ≤ t.2.2 then do
      let v ← listGet vals t.1
      let ps ← onePairs vals rest
      return (t.2.2.toNat, v) :: ps
    else onePairs vals rest

/-- Claim-side flat list of `(DOF, value)` penalty updates named by a
constraint list under a DOF map. -/
def constraintPairs (dm : DofMap) : List Constraint → Exc (List (Nat × ℚ))
  | [] => .ok []
  | c :: rest => do
    let nd ← dictGet dm c.node_id
    let ps ← onePairs c.values (c.dofs.zip nd).enum
    let rest2 ← constraintPairs dm rest
    return ps ++ rest2

/-- Fold of diagonal penalty additions over a pair list. -/
def applyPairsK (K : Mat) (ps : List (Nat × ℚ)) : Mat :=
  ps.foldl (fun A p => matAddDiag A p.1 penalty) K

/-- Fold of force penalty additions over a pair list. -/
def applyPairsF (F : Vec) (ps : List (Nat × ℚ)) : Vec :=
  ps.foldl (fun v p => vecAddAt v p.1 (penalty * p.2)) F

theorem applyPairsK_length (K : Mat) (ps : List (Nat × ℚ)) :
    (applyPairsK K ps).length = K.length := by
  induction ps generalizing K with
  | nil => rfl
  | cons p rest ih =>
    simp only [applyPairsK, List.foldl_cons] at ih ⊢
    rw [ih, matAddDiag_length]

theorem applyPairsF_length (F : Vec) (ps : List (Nat × ℚ)) :
    (applyPairsF F ps).length = F.length := by
  induction ps generalizing F with
  | nil => rfl
  | cons p rest ih =>
    simp only [applyPairsF, List.foldl_cons] at ih ⊢
    rw [ih, vecAddAt_length]

/-- The inner constraint loop, when it succeeds, performs exactly the flat
fold of penalty updates over the claim-side pair list, and every touched DOF
is in range of the original operators. -/
theorem constraintStep_ok (c : Constraint) (t : Nat × Bool × Int) (K : Mat) (F : Vec)
    (v : ℚ) (hc : t.2.1 = true ∧ 0 ≤ t.2.2) (hv : listGet c.values t.1 = .ok v) :
    constraintStep c (K, F) t =
      if t.2.2.toNat < K.length ∧ t.2.2.toNat < F.length then
        .ok (matAddDiag K t.2.2.toNat penalty, vecAddAt F t.2.2.toNat (penalty * v))
      else .error .indexError := by
  unfold constraintStep
  rw [if_pos hc, hv]
  rfl

theorem constraintStep_error (c : Constraint) (t : Nat × Bool × Int) (K : Mat) (F : Vec)
    (e : PyErr) (hc : t.2.1 = true ∧ 0 ≤ t.2.2) (hv : listGet c.values t.1 = .error e) :
    constraintStep c (K, F) t = .error e := by
  unfold constraintStep
  rw [if_pos hc, hv]
  rfl

theorem constraintStep_skip (c : Constraint) (t : Nat × Bool × Int) (K : Mat) (F : Vec)
    (hc : ¬(t.2.1 = true ∧ 0 ≤ t.2.2)) : constraintStep c (K, F) t = .ok (K, F) := by
  unfold constraintStep
  rw [if_neg hc]
  rfl

theorem constraintFold_spec (c : Constraint) (l : List (Nat × Bool × Int)) :
    ∀ (K : Mat) (F : Vec) (K2 : Mat) (F2 : Vec),
      l.foldlM (constraintStep c) (K, F) = .ok (K2, F2) →
      ∃ ps, onePairs c.values l = .ok ps ∧
        K2 = applyPairsK K ps ∧ F2 = applyPairsF F ps ∧
        ∀ p ∈ ps, p.1 < K.length ∧ p.1 < F.length := by
  induction l with
  | nil =>
    intro K F K2 F2 h
    simp only [List.foldlM_nil] at h
    cases h
    exact ⟨[], rfl, rfl, rfl, by simp⟩
  | cons t rest ih =>
    intro K F K2 F2 h
    rw [List.foldlM_cons] at h
    by_cases hc : t.2.1 = true ∧ 0 ≤ t.2.2
    · cases hv : listGet c.values t.1 with
      | error e =>
        rw [constraintStep_error c t K F e hc hv] at h
        simp at h
      | ok v =>
        rw [constraintStep_ok c t K F v hc hv] at h
        by_cases hb : t.2.2.toNat < K.length ∧ t.2.2.toNat < F.length
        · rw [if_pos hb, exc_bind_ok] at h
          obtain ⟨ps, hps, hK, hF, hbnd⟩ := ih _ _ _ _ h
          refine ⟨(t.2.2.toNat, v) :: ps, ?_, ?_, ?_, ?_⟩
          · unfold onePairs
            simp [hc, hv, hps]
          · simpa [applyPairsK] using hK
          · simpa [applyPairsF] using hF
          · intro p hp
            rcases List.mem_cons.mp hp with hp | hp
            · cases hp
              exact hb
            · have h3 := hbnd p hp
              rw [matAddDiag_length] at h3
              rw [vecAddAt_length] at h3
              exact h3
        · rw [if_neg hb] at h
          simp at h
    · rw [constraintStep_skip c t K F hc, exc_bind_ok] at h
      obtain ⟨ps, hps, hK, hF, hbnd⟩ := ih _ _ _ _ h
      refine ⟨ps, ?_, hK, hF, hbnd⟩
      unfold onePairs
      simp [hc, hps]

/-- `_apply_constraints`, when it succeeds, performs exactly the flat fold of
penalty updates over the claim-side pair list of all constraints. -/
theorem applyConstraints_spec (dm : DofMap) (cs : List Constraint) :
    ∀ (K : Mat) (F : Vec) (K2 : Mat) (F2 : Vec),
      applyConstraints cs dm K F = .ok (K2, F2) →
      ∃ ps, constraintPairs dm cs = .ok ps ∧
        K2 = applyPairsK K ps ∧ F2 = applyPairsF F ps ∧
        ∀ p ∈ ps, p.1 < K.length ∧ p.1 < F.length := by
  induction cs with
  | nil =>
    intro K F K2 F2 h
    unfold applyConstraints at h
    simp only [List.foldlM_nil] at h
    cases h
    exact ⟨[], rfl, rfl, rfl, by simp⟩
  | cons c rest ih =>
    intro K F K2 F2 h
    unfold applyConstraints at h
    rw [List.foldlM_cons] at h
    cases hnd : dictGet dm c.node_id with
    | error e =>
      rw [show ((do
            let nodeDofs ← dictGet dm c.node_id
            applyOneConstraint c nodeDofs (K, F) : Exc (Mat × Vec))) =
          dictGet dm c.node_id >>= fun nd => applyOneConstraint c nd (K, F) from rfl,
        hnd] at h
      simp at h
    | ok nd =>
      rw [show ((do
            let nodeDofs ← dictGet dm c.node_id
            applyOneConstraint c nodeDofs (K, F) : Exc (Mat × Vec))) =
          dictGet dm c.node_id >>= fun nd => applyOneConstraint c nd (K, F) from rfl,
        hnd, exc_bind_ok] at h
      cases h1 : applyOneConstraint c nd (K, F) with
      | error e =>
        rw [h1] at h
        simp at h
      | ok KF1 =>
        rw [h1, exc_bind_ok] at h
        have h2 : applyConstraints rest dm KF1.1 KF1.2 = .ok (K2, F2) := by
          unfold applyConstraints
          cases KF1
          exact h
        obtain ⟨ps1, hps1, hK1, hF1, hb1⟩ :=
          constraintFold_spec c ((c.dofs.zip nd).enum) K F KF1.1 KF1.2 (by
            cases KF1
            exact h1)
        obtain ⟨ps2, hps2, hK2, hF2, hb2⟩ := ih _ _ _ _ h2
        refine ⟨ps1 ++ ps2, ?_, ?_, ?_, ?_⟩
        · unfold constraintPairs
          simp [hnd, hps1, hps2]
        · rw [hK2, hK1]
          simp [applyPairsK, List.foldl_append]
        · rw [hF2, hF1]
          simp [applyPairsF, List.foldl_append]
        · intro p hp
          rcases List.mem_append.mp hp with hp | hp
          · exact hb1 p hp
          · have h3 := hb2 p hp
            rw [hK1, hF1, applyPairsK_length, applyPairsF_length] at h3
            exact h3

/-- All rows of a matrix have length equal to the row count. -/
abbrev rowsSquare (K : Mat) : Prop := ∀ r ∈ K, r.length = K.length

theorem modAt_mem {l : List α} {x : α} (i : Nat) (f : α → α)
    (h : x ∈ modAt l i f) : x ∈ l ∨ ∃ y ∈ l, x = f y := by
  induction l generalizing i with
  | nil => simp [modAt] at h
  | cons a as ih =>
    cases i with
    | zero =>
      rcases List.mem_cons.mp h with h | h
      · exact Or.inr ⟨a, by simp, h⟩
      · exact Or.inl (List.mem_cons_of_mem _ h)
    | succ i0 =>
      rcases List.mem_cons.mp h with h | h
      · exact Or.inl (by simp [h])
      · rcases ih i0 h with h2 | ⟨y, hy, hxy⟩
        · exact Or.inl (List.mem_cons_of_mem _ h2)
        · exact Or.inr ⟨y, List.mem_cons_of_mem _ hy, hxy⟩

theorem matAddDiag_rowsSquare {K : Mat} (h : rowsSquare K) (d : Nat) (c : ℚ) :
    rowsSquare (matAddDiag K d c) := by
  intro r hr
  rw [matAddDiag_length]
  unfold matAddDiag at hr
  rcases modAt_mem d _ hr with hm | ⟨y, hy, hxy⟩
  · exact h r hm
  · rw [hxy, modAt_length]
    exact h y hy

theorem getD_mem_of_lt {l : List α} {i : Nat} (h : i < l.length) (d : α) :
    l.getD i d ∈ l := by
  rw [List.getD_eq_getElem l d h]
  exact List.getElem_mem h

/-- Entry behaviour of a single in-range diagonal penalty addition on a
matrix with square rows. -/
theorem mget_matAddDiag {K : Mat} (hsq : rowsSquare K) {d : Nat}
    (hd : d < K.length) (c : ℚ) (i j : Nat) :
    mget (matAddDiag K d c) i j =
      if i = d ∧ j = d then mget K i j + c else mget K i j := by
  unfold matAddDiag mget
  rw [modAt_getD]
  have hlen : (K.getD d []).length = K.length := hsq _ (getD_mem_of_lt hd [])
  by_cases hi : i = d
  · subst hi
    rw [if_pos ⟨rfl, hd⟩, modAt_getD]
    by_cases hj : j = i
    · subst hj
      rw [if_pos ⟨rfl, hlen ▸ hd⟩, if_pos ⟨rfl, rfl⟩]
    · rw [if_neg (fun hc => hj hc.1), if_neg (fun hc => hj hc.2)]
  · rw [if_neg (fun hc => hi hc.1), if_neg (fun hc => hi hc.1)]

/-- Entry characterisation of the full fold of diagonal penalty additions:
off-diagonal entries are untouched and each diagonal entry gains `penalty`
once per pair naming it. -/
theorem mget_applyPairsK {K : Mat} (hsq : rowsSquare K) (ps : List (Nat × ℚ))
    (hb : ∀ p ∈ ps, p.1 < K.length) (i j : Nat) :
    mget (applyPairsK K ps) i j =
      if i = j then
        mget K i j + penalty * (((ps.filter (fun p => p.1 == i)).length : ℚ))
      else mget K i j := by
  induction ps generalizing K with
  | nil => simp [applyPairsK]
  | cons p rest ih =>
    have hd : p.1 < K.length := hb p (by simp)
    have hK2 : rowsSquare (matAddDiag K p.1 penalty) :=
      matAddDiag_rowsSquare hsq p.1 penalty
    have hb2 : ∀ q ∈ rest, q.1 < (matAddDiag K p.1 penalty).length := by
      intro q hq
      rw [matAddDiag_length]
      exact hb q (List.mem_cons_of_mem _ hq)
    have step : applyPairsK K (p :: rest) = applyPairsK (matAddDiag K p.1 penalty) rest := by
      simp [applyPairsK]
    have hm := mget_matAddDiag hsq hd penalty i j
    rw [step, ih hK2 hb2, hm]
    by_cases hij : i = j
    · subst hij
      rw [if_pos rfl, if_pos rfl]
      by_cases hpi : p.1 = i
      · rw [if_pos ⟨hpi.symm, hpi.symm⟩, List.filter_cons, if_pos (by simp [hpi]),
          List.length_cons]
        push_cast
        ring
      · rw [if_neg (fun hc => hpi hc.1.symm), List.filter_cons, if_neg (by simp [hpi])]
    · rw [if_neg hij, if_neg hij, if_neg (fun hc => hij (hc.1.trans hc.2.symm))]

/-- Entry characterisation of the fold of force penalty additions: entry `d`
gains `penalty · ū` once per pair `(d, ū)`. -/
theorem getD_applyPairsF (F : Vec) (ps : List (Nat × ℚ))
    (hb : ∀ p ∈ ps, p.1 < F.length) (d : Nat) :
    (applyPairsF F ps).getD d 0 =
      F.getD d 0 + penalty * (((ps.filter (fun p => p.1 == d)).map Prod.snd).sum) := by
  induction ps generalizing F with
  | nil => simp [applyPairsF]
  | cons p rest ih =>
    have hd : p.1 < F.length := hb p (by simp)
    have hb2 : ∀ q ∈ rest, q.1 < (vecAddAt F p.1 (penalty * p.2)).length := by
      intro q hq
      rw [vecAddAt_length]
      exact hb q (List.mem_cons_of_mem _ hq)
    have step : applyPairsF F (p :: rest) = applyPairsF (vecAddAt F p.1 (penalty * p.2)) rest := by
      simp [applyPairsF]
    rw [step, ih _ hb2]
    unfold vecAddAt
    rw [modAt_getD]
    by_cases hpd : p.1 = d
    · subst hpd
      rw [if_pos ⟨rfl, hd⟩, List.filter_cons, if_pos (by simp), List.map_cons,
        List.sum_cons]
      ring
    · rw [if_neg (fun hc => hpd hc.1.symm), List.filter_cons, if_neg (by simp [hpd])]

/-- **C4.**  Penalty constraint application: `_apply_constraints` returns a
pair `(K_c, F_c)` in which, for each constrained DOF `d` that is active (the
claim-side pair list `constraintPairs`), `K[d,d]` gained the penalty once per
naming pair and `F[d]` gained `penalty · ū` per naming pair, while
off-diagonal entries of `K` are untouched; and on a successful static solve
the stored `K_global`/`F_global` are the **un-penalised** assembled operators
(constraint application worked on copies) and the stored reactions are
`K_global·u − F_global` computed from them. -/
theorem c4_penalty_method :
    (∀ (cs : List Constraint) (dm : DofMap) (K : Mat) (F : Vec) (Kc : Mat) (Fc : Vec),
      rowsSquare K →
      applyConstraints cs dm K F = .ok (Kc, Fc) →
      ∃ ps, constraintPairs dm cs = .ok ps ∧
        (∀ i j, i ≠ j → mget Kc i j = mget K i j) ∧
        (∀ d, mget Kc d d =
          mget K d d + penalty * (((ps.filter (fun p => p.1 == d)).length : ℚ))) ∧
        (∀ d, Fc.getD d 0 =
          F.getD d 0 + penalty * (((ps.filter (fun p => p.1 == d)).map Prod.snd).sum))) ∧
    (∀ (eng : Engine) (r : StaticSuccess),
      solve_static eng = .success r →
      r.reactions = vSub (matVec r.K_global r.displacements) r.F_global ∧
      assembleGlobalStiffness eng (setupDofMapping eng.nodes).1
          (setupDofMapping eng.nodes).2 = .ok r.K_global ∧
      assembleGlobalForce eng (setupDofMapping eng.nodes).1
          (setupDofMapping eng.nodes).2 = .ok r.F_global) := by
  constructor
  · intro cs dm K F Kc Fc hsq happ
    obtain ⟨ps, hps, hK, hF, hb⟩ := applyConstraints_spec dm cs K F Kc Fc happ
    refine ⟨ps, hps, ?_, ?_, ?_⟩
    · intro i j hij
      rw [hK, mget_applyPairsK hsq ps (fun p hp => (hb p hp).1) i j]
      simp [hij]
    · intro d
      rw [hK, mget_applyPairsK hsq ps (fun p hp => (hb p hp).1) d d]
      simp
    · intro d
      rw [hF, getD_applyPairsF F ps (fun p hp => (hb p hp).2) d]
  · intro eng r h
    unfold solve_static at h
    cases hp : staticPrelude eng with
    | error e =>
      rw [hp] at h
      cases h
    | ok pre =>
      obtain ⟨dofMap, total, K, F, Kc, Fc⟩ := pre
      rw [hp] at h
      cases hu : spsolve Kc Fc with
      | error e =>
        simp [hu] at h
      | ok u =>
        cases hef : calculateElementForces eng dofMap u with
        | error e =>
          simp [hu, hef] at h
        | ok ef =>
          cases hmx : maxAbs u with
          | error e =>
            simp [hu, hef, hmx] at h
          | ok mx =>
            simp only [hu, hef, hmx, exc_bind_ok, exc_pure_eq_ok] at h
            cases h
            -- invert the prelude to recover the assembly equations
            unfold staticPrelude at hp
            cases hK : assembleGlobalStiffness eng (setupDofMapping eng.nodes).1
                (setupDofMapping eng.nodes).2 with
            | error e => simp [hK] at hp
            | ok K2 =>
              cases hF : assembleGlobalForce eng (setupDofMapping eng.nodes).1
                  (setupDofMapping eng.nodes).2 with
              | error e => simp [hK, hF] at hp
              | ok F2 =>
                cases hC : applyConstraints eng.constraints
                    (setupDofMapping eng.nodes).1 K2 F2 with
                | error e => simp [hK, hF, hC] at hp
                | ok KcFc =>
                  simp only [hK, hF, hC, exc_bind_ok, exc_pure_eq_ok] at hp
                  cases hp
                  exact ⟨rfl, rfl, rfl⟩

/-! ## Claim C10: the lumped mass matrix -/

theorem listGet_mem {l : List α} {i : Nat} {x : α} (h : listGet l i = .ok x) :
    x ∈ l := by
  unfold listGet at h
  cases hg : l.get? i with
  | none => rw [hg] at h; cases h
  | some y =>
    rw [hg] at h
    cases h
    exact List.get?_mem hg

theorem dictGet_mem {l : List (Int × α)} {k : Int} {v : α}
    (h : dictGet l k = .ok v) : ∃ kk, (kk, v) ∈ l := by
  unfold dictGet at h
  cases hf : l.find? (fun p => p.1 == k) with
  | none => rw [hf] at h; cases h
  | some p =>
    rw [hf] at h
    cases h
    exact ⟨p.1, by simpa using List.mem_of_find?_eq_some hf⟩

theorem getD_replicate_split (n i : Nat) (x d : α) :
    (List.replicate n x).getD i d = if i < n then x else d := by
  induction n generalizing i with
  | zero => simp
  | succ m ih =>
    cases i with
    | zero => simp [List.replicate_succ]
    | succ i0 => simpa [List.replicate_succ, Nat.succ_lt_succ_iff] using ih i0

theorem zerosMat_length (n m : Nat) : (zerosMat n m).length = n := by
  simp [zerosMat]

theorem mget_zerosMat (n m i j : Nat) : mget (zerosMat n m) i j = 0 := by
  unfold mget zerosMat zerosVec
  rw [getD_replicate_split]
  by_cases hi : i < n
  · rw [if_pos hi, getD_replicate_split]
    by_cases hj : j < m
    · rw [if_pos hj]
    · rw [if_neg hj]
  · rw [if_neg hi]
    simp

theorem rowsSquare_zerosMat (n : Nat) : rowsSquare (zerosMat n n) := by
  intro r hr
  rw [zerosMat_length]
  have := List.eq_of_mem_replicate hr
  rw [this]
  simp [zerosVec]

theorem traceM_zerosMat (n : Nat) : traceM (zerosMat n n) = 0 := by
  unfold traceM
  rw [zerosMat_length]
  have h : ∀ i ∈ List.range n, mget (zerosMat n n) i i = (0 : ℚ) :=
    fun i _ => mget_zerosMat n n i i
  rw [List.map_congr_left h]
  simp

theorem ratSqrt_nonneg (q : ℚ) : 0 ≤ ratSqrt q := by
  unfold ratSqrt
  rw [Rat.mkRat_eq_div]
  positivity

theorem listRange_map_sum_update (n d : Nat) (hd : d < n) (f : Nat → ℚ) (c : ℚ) :
    ((List.range n).map (fun i => f i + if i = d then c else 0)).sum
      = ((List.range n).map f).sum + c := by
  induction n with
  | zero => exact absurd hd (Nat.not_lt_zero d)
  | succ m ih =>
    rw [List.range_succ, List.map_append, List.map_append, List.sum_append, List.sum_append]
    by_cases hdm : d = m
    · subst hdm
      have h : ∀ i ∈ List.range d, f i + (if i = d then c else 0) = f i := by
        intro i hi
        have : i ≠ d := Nat.ne_of_lt (List.mem_range.mp hi)
        simp [this]
      rw [List.map_congr_left h]
      simp only [List.map_cons, List.map_nil, List.sum_cons, List.sum_nil]
      ring_nf
      simp
    · have hd2 : d < m := by
        rcases Nat.lt_succ_iff_lt_or_eq.mp hd with h2 | h2
        · exact h2
        · exact absurd h2 hdm
      rw [ih hd2]
      have hmd : ¬m = d := fun h => hdm h.symm
      simp only [List.map_cons, List.map_nil, List.sum_cons, List.sum_nil, hmd, if_false]
      ring

theorem traceM_matAddDiag {M : Mat} (hsq : rowsSquare M) {d : Nat}
    (hd : d < M.length) (c : ℚ) :
    traceM (matAddDiag M d c) = traceM M + c := by
  unfold traceM
  rw [matAddDiag_length]
  have h : ∀ i ∈ List.range M.length,
      mget (matAddDiag M d c) i i = mget M i i + if i = d then c else 0 := by
    intro i _
    rw [mget_matAddDiag hsq hd c i i]
    by_cases hi : i = d
    · simp [hi]
    · simp [hi]
  rw [List.map_congr_left h]
  exact listRange_map_sum_update M.length d hd _ c

/-- Claim-side count of active slots among the given slot indices of one
node's DOF list (raising exactly where the assembly's inner loop raises). -/
def cntSlots (nodeDofs : List Int) : List Nat → Exc Nat
  | [] => .ok 0
  | i :: rest => do
    let dof ← listGet nodeDofs i
    let c ← cntSlots nodeDofs rest
    if 0 ≤ dof then pure (c + 1) else pure c

/-- Claim-side count of active translational slots over an element's nodes. -/
def cntNodes (dofMap : DofMap) : List Int → Exc Nat
  | [] => .ok 0
  | nid :: rest => do
    let nodeDofs ← dictGet dofMap nid
    let c1 ← cntSlots nodeDofs (List.range 3)
    let c2 ← cntNodes dofMap rest
    return c1 + c2

/-- Claim-side per-element trace contribution: `ρ·A·L/2` per active
translational slot of the element's nodes, mirroring the lookups of
`massElemStep`. -/
def traceElemStep (eng : Engine) (dofMap : DofMap) (acc : ℚ) (p : Int × Element) :
    Exc ℚ := do
  let e := p.2
  let material ← dictGet eng.materials e.material_id
  match (match e.section_id with
         | none => none
         | some sid => dictFind eng.sections sid) with
  | none => pure acc
  | some sec => do
    let n1id ← listGet e.nodes 0
    let n2id ← listGet e.nodes 1
    let node1 ← dictGet eng.nodes n1id
    let node2 ← dictGet eng.nodes n2id
    let dx := node2.x - node1.x
    let dy := node2.y - node1.y
    let dz := node2.z - node1.z
    let L := ratSqrt (dx ^ 2 + dy ^ 2 + dz ^ 2)
    let nodalMass := material.rho * sec.A * L / 2
    let c ← cntNodes dofMap e.nodes
    return acc + nodalMass * c

/-- Claim-side total trace of the lumped mass matrix: the sum over elements
of `ρ·A·L/2` per active translational DOF slot. -/
def lumpedTraceSpec (eng : Engine) (dofMap : DofMap) : Exc ℚ :=
  eng.elements.foldlM (traceElemStep eng dofMap) 0

theorem massSlots_spec (nm : ℚ) (nd : List Int) (total : Nat)
    (hb : ∀ d ∈ nd, 0 ≤ d → d.toNat < total) :
    ∀ (slots : List Nat) (M : Mat), M.length = total → rowsSquare M →
      (∃ e, massSlots nm nd slots M = .error e ∧ cntSlots nd slots = .error e) ∨
      (∃ M2 c, massSlots nm nd slots M = .ok M2 ∧ cntSlots nd slots = .ok c ∧
        M2.length = total ∧ rowsSquare M2 ∧
        traceM M2 = traceM M + nm * c ∧
        (∀ i j, i ≠ j → mget M2 i j = mget M i j) ∧
        (0 ≤ nm → (∀ i, 0 ≤ mget M i i) → ∀ i, 0 ≤ mget M2 i i)) := by
  intro slots
  induction slots with
  | nil =>
    intro M hlen hsq
    right
    exact ⟨M, 0, rfl, rfl, hlen, hsq, by simp, fun i j _ => rfl, fun _ h i => h i⟩
  | cons s rest ih =>
    intro M hlen hsq
    unfold massSlots
    rw [List.foldlM_cons]
    cases hg : listGet nd s with
    | error e =>
      left
      refine ⟨e, rfl, ?_⟩
      unfold cntSlots
      rw [hg]
      rfl
    | ok dof =>
      simp only [exc_bind_ok]
      by_cases hpos : 0 ≤ dof
      · rw [if_pos hpos]
        simp only [exc_pure_eq_ok, exc_bind_ok]
        have hdlt : dof.toNat < total := hb dof (listGet_mem hg) hpos
        have hlen2 : (matAddDiag M dof.toNat nm).length = total := by
          rw [matAddDiag_length, hlen]
        have hsq2 : rowsSquare (matAddDiag M dof.toNat nm) :=
          matAddDiag_rowsSquare hsq dof.toNat nm
        have hdlt2 : dof.toNat < M.length := by
          rw [hlen]
          exact hdlt
        rcases ih (matAddDiag M dof.toNat nm) hlen2 hsq2 with ⟨e, h1, h2⟩ | h2
        · left
          refine ⟨e, h1, ?_⟩
          unfold cntSlots
          rw [hg]
          simp only [exc_bind_ok, h2]
          rfl
        · obtain ⟨M2, c, hm2, hc2, hl2, hs2, ht2, ho2, hn2⟩ := h2
          right
          refine ⟨M2, c + 1, hm2, ?_, hl2, hs2, ?_, ?_, ?_⟩
          · unfold cntSlots
            rw [hg]
            simp only [exc_bind_ok, hc2, hpos, if_pos]
            rfl
          · rw [ht2, traceM_matAddDiag hsq hdlt2 nm]
            push_cast
            ring
          · intro i j hij
            rw [ho2 i j hij, mget_matAddDiag hsq hdlt2 nm i j,
              if_neg (fun hc => hij (hc.1.trans hc.2.symm))]
          · intro hnm hM i
            apply hn2 hnm
            intro i2
            rw [mget_matAddDiag hsq hdlt2 nm i2 i2]
            by_cases hval : i2 = dof.toNat
            · rw [if_pos ⟨hval, hval⟩]
              exact add_nonneg (hM i2) hnm
            · rw [if_neg (fun hc => hval hc.1)]
              exact hM i2
      · rw [if_neg hpos]
        simp only [exc_pure_eq_ok, exc_bind_ok]
        rcases ih M hlen hsq with ⟨e, h1, h2⟩ | h2
        · left
          refine ⟨e, h1, ?_⟩
          unfold cntSlots
          rw [hg]
          simp only [exc_bind_ok, h2]
          rfl
        · obtain ⟨M2, c, hm2, hc2, hl2, hs2, ht2, ho2, hn2⟩ := h2
          right
          refine ⟨M2, c, hm2, ?_, hl2, hs2, ht2, ho2, hn2⟩
          unfold cntSlots
          rw [hg]
          simp only [exc_bind_ok, hc2, hpos, if_false]
          rfl

theorem dictFind_mem {l : List (Int × α)} {k : Int} {v : α}
    (h : dictFind l k = some v) : ∃ kk, (kk, v) ∈ l := by
  unfold dictFind at h
  cases hf : l.find? (fun p => p.1 == k) with
  | none => rw [hf] at h; cases h
  | some p =>
    rw [hf] at h
    cases h
    exact ⟨p.1, by simpa using List.mem_of_find?_eq_some hf⟩

theorem massNodes_spec (nm : ℚ) (dm : DofMap) (total : Nat)
    (hdm : ∀ q ∈ dm, ∀ d ∈ q.2, 0 ≤ d → d.toNat < total) :
    ∀ (nodeIds : List Int) (M : Mat), M.length = total → rowsSquare M →
      (∃ e, massNodes dm nm nodeIds M = .error e ∧ cntNodes dm nodeIds = .error e) ∨
      (∃ M2 c, massNodes dm nm nodeIds M = .ok M2 ∧ cntNodes dm nodeIds = .ok c ∧
        M2.length = total ∧ rowsSquare M2 ∧
        traceM M2 = traceM M + nm * c ∧
        (∀ i j, i ≠ j → mget M2 i j = mget M i j) ∧
        (0 ≤ nm → (∀ i, 0 ≤ mget M i i) → ∀ i, 0 ≤ mget M2 i i)) := by
  intro nodeIds
  induction nodeIds with
  | nil =>
    intro M hlen hsq
    right
    exact ⟨M, 0, rfl, rfl, hlen, hsq, by simp, fun i j _ => rfl, fun _ h i => h i⟩
  | cons nid rest ih =>
    intro M hlen hsq
    unfold massNodes
    rw [List.foldlM_cons]
    cases hnd : dictGet dm nid with
    | error e =>
      left
      refine ⟨e, rfl, ?_⟩
      unfold cntNodes
      rw [hnd]
      rfl
    | ok nd =>
      simp only [exc_bind_ok]
      obtain ⟨kk, hmem⟩ := dictGet_mem hnd
      have hb : ∀ d ∈ nd, 0 ≤ d → d.toNat < total :=
        fun d hd h0 => hdm (kk, nd) hmem d hd h0
      rcases massSlots_spec nm nd total hb (List.range 3) M hlen hsq with
        ⟨e, h1, h2⟩ | ⟨M1, c1, hm1, hc1, hl1, hs1, ht1, ho1, hn1⟩
      · left
        refine ⟨e, ?_, ?_⟩
        · rw [h1]
          rfl
        · unfold cntNodes
          rw [hnd]
          simp only [exc_bind_ok, h2]
          rfl
      · rw [hm1]
        simp only [exc_bind_ok]
        rcases ih M1 hl1 hs1 with ⟨e, h1, h2⟩ | ⟨M2, c2, hm2, hc2, hl2, hs2, ht2, ho2, hn2⟩
        · left
          refine ⟨e, h1, ?_⟩
          unfold cntNodes
          rw [hnd]
          simp only [exc_bind_ok, hc1, h2]
          rfl
        · right
          refine ⟨M2, c1 + c2, hm2, ?_, hl2, hs2, ?_, ?_, ?_⟩
          · unfold cntNodes
            rw [hnd]
            simp only [exc_bind_ok, hc1, hc2]
            rfl
          · rw [ht2, ht1]
            push_cast
            ring
          · intro i j hij
            rw [ho2 i j hij, ho1 i j hij]
          · intro hnm hM i
            exact hn2 hnm (hn1 hnm hM) i

theorem massElemStep_spec (eng : Engine) (dm : DofMap) (total : Nat)
    (hdm : ∀ q ∈ dm, ∀ d ∈ q.2, 0 ≤ d → d.toNat < total) (p : Int × Element)
    (M : Mat) (t : ℚ) (hlen : M.length = total) (hsq : rowsSquare M) :
    (∃ e, massElemStep eng dm M p = .error e ∧ traceElemStep eng dm t p = .error e) ∨
    (∃ M2 t2, massElemStep eng dm M p = .ok M2 ∧ traceElemStep eng dm t p = .ok t2 ∧
      M2.length = total ∧ rowsSquare M2 ∧
      t2 - t = traceM M2 - traceM M ∧
      (∀ i j, i ≠ j → mget M2 i j = mget M i j) ∧
      ((∀ q ∈ eng.materials, 0 ≤ q.2.rho) → (∀ q ∈ eng.sections, 0 ≤ q.2.A) →
        (∀ i, 0 ≤ mget M i i) → ∀ i, 0 ≤ mget M2 i i)) := by
  unfold massElemStep traceElemStep
  dsimp only
  cases hmat : dictGet eng.materials p.2.material_id with
  | error e => exact Or.inl ⟨e, rfl, rfl⟩
  | ok material =>
    simp only [exc_bind_ok]
    cases hsec : (match p.2.section_id with
                  | none => none
                  | some sid => dictFind eng.sections sid) with
    | none =>
      right
      exact ⟨M, t, rfl, rfl, hlen, hsq, by ring, fun i j _ => rfl, fun _ _ h i => h i⟩
    | some sec =>
      cases hn1 : listGet p.2.nodes 0 with
      | error e => exact Or.inl ⟨e, rfl, rfl⟩
      | ok n1id =>
        simp only [exc_bind_ok]
        cases hn2 : listGet p.2.nodes 1 with
        | error e => exact Or.inl ⟨e, rfl, rfl⟩
        | ok n2id =>
          simp only [exc_bind_ok]
          cases hnode1 : dictGet eng.nodes n1id with
          | error e => exact Or.inl ⟨e, rfl, rfl⟩
          | ok node1 =>
            simp only [exc_bind_ok]
            cases hnode2 : dictGet eng.nodes n2id with
            | error e => exact Or.inl ⟨e, rfl, rfl⟩
            | ok node2 =>
              simp only [exc_bind_ok]
              rcases massNodes_spec
                  (material.rho * sec.A *
                    ratSqrt ((node2.x - node1.x) ^ 2 + (node2.y - node1.y) ^ 2 +
                      (node2.z - node1.z) ^ 2) / 2) dm total hdm p.2.nodes M hlen hsq with
                ⟨e, h1, h2⟩ | ⟨M2, c, hm2, hc2, hl2, hs2, ht2, ho2, hn2⟩
              · left
                refine ⟨e, h1, ?_⟩
                simp only [exc_bind_ok, h2]
                rfl
              · right
                refine ⟨M2, t + material.rho * sec.A *
                    ratSqrt ((node2.x - node1.x) ^ 2 + (node2.y - node1.y) ^ 2 +
                      (node2.z - node1.z) ^ 2) / 2 * c, hm2, ?_, hl2, hs2, ?_, ho2, ?_⟩
                · simp only [exc_bind_ok, hc2]
                  rfl
                · rw [ht2]
                  ring
                · intro hrho hA hM i
                  obtain ⟨km, hmm⟩ := dictGet_mem hmat
                  have hsecmem : ∃ ks, (ks, sec) ∈ eng.sections := by
                    cases hsid : p.2.section_id with
                    | none => rw [hsid] at hsec; cases hsec
                    | some sid =>
                      rw [hsid] at hsec
                      exact dictFind_mem hsec
                  obtain ⟨ks, hsm⟩ := hsecmem
                  have hnm : 0 ≤ material.rho * sec.A *
                      ratSqrt ((node2.x - node1.x) ^ 2 + (node2.y - node1.y) ^ 2 +
                        (node2.z - node1.z) ^ 2) / 2 := by
                    have h1 := hrho (km, material) hmm
                    have h2 := hA (ks, sec) hsm
                    have h3 := ratSqrt_nonneg ((node2.x - node1.x) ^ 2 +
                      (node2.y - node1.y) ^ 2 + (node2.z - node1.z) ^ 2)
                    positivity
                  exact hn2 hnm hM i

theorem massFold_spec (eng : Engine) (dm : DofMap) (total : Nat)
    (hdm : ∀ q ∈ dm, ∀ d ∈ q.2, 0 ≤ d → d.toNat < total) :
    ∀ (elems : List (Int × Element)) (M : Mat) (t : ℚ),
      M.length = total → rowsSquare M →
      (∃ e, elems.foldlM (massElemStep eng dm) M = .error e ∧
            elems.foldlM (traceElemStep eng dm) t = .error e) ∨
      (∃ M2 t2, elems.foldlM (massElemStep eng dm) M = .ok M2 ∧
        elems.foldlM (traceElemStep eng dm) t = .ok t2 ∧
        M2.length = total ∧ rowsSquare M2 ∧
        t2 - t = traceM M2 - traceM M ∧
        (∀ i j, i ≠ j → mget M2 i j = mget M i j) ∧
        ((∀ q ∈ eng.materials, 0 ≤ q.2.rho) → (∀ q ∈ eng.sections, 0 ≤ q.2.A) →
          (∀ i, 0 ≤ mget M i i) → ∀ i, 0 ≤ mget M2 i i)) := by
  intro elems
  induction elems with
  | nil =>
    intro M t hlen hsq
    right
    exact ⟨M, t, rfl, rfl, hlen, hsq, by ring, fun i j _ => rfl, fun _ _ h i => h i⟩
  | cons p rest ih =>
    intro M t hlen hsq
    rw [List.foldlM_cons, List.foldlM_cons]
    rcases massElemStep_spec eng dm total hdm p M t hlen hsq with
      ⟨e, h1, h2⟩ | ⟨M1, t1, hm1, ht1eq, hl1, hs1, hd1, ho1, hn1⟩
    · left
      rw [h1, h2]
      exact ⟨e, rfl, rfl⟩
    · rw [hm1, ht1eq]
      simp only [exc_bind_ok]
      rcases ih M1 t1 hl1 hs1 with
        ⟨e, h1, h2⟩ | ⟨M2, t2, hm2, ht2eq, hl2, hs2, hd2, ho2, hn2⟩
      · exact Or.inl ⟨e, h1, h2⟩
      · right
        refine ⟨M2, t2, hm2, ht2eq, hl2, hs2, ?_, ?_, ?_⟩
        · have := hd1
          have := hd2
          linarith
        · intro i j hij
          rw [ho2 i j hij, ho1 i j hij]
        · intro hrho hA hM i
          exact hn2 hrho hA (hn1 hrho hA hM) i

/-- Count of `true` in a flattened list of masks. -/
theorem count_true_flatten (ls : List (List Bool)) :
    ls.flatten.count true = (ls.map (fun l => l.count true)).sum := by
  induction ls with
  | nil => rfl
  | cons l rest ih =>
    simp [List.flatten_cons, List.count_append, ih]

theorem count_take_lt (masks : List Bool) (p : Nat) (hp : p < masks.length)
    (ht : masks.getD p false = true) :
    (masks.take p).count true < masks.count true := by
  conv_rhs => rw [← List.take_append_drop p masks]
  rw [List.count_append]
  have hdrop : masks.drop p = masks[p] :: masks.drop (p + 1) :=
    List.drop_eq_getElem_cons hp
  have hgd : masks[p] = true := by
    rw [← List.getD_eq_getElem masks false hp]
    exact ht
  rw [hdrop, hgd, List.count_cons]
  simp

/-- Every active DOF index produced by `_setup_dof_mapping` is below the
total DOF count. -/
theorem setup_dof_lt (nodes : List (Int × Node)) :
    ∀ q ∈ (setupDofMapping nodes).1, ∀ d ∈ q.2, 0 ≤ d →
      d.toNat < (setupDofMapping nodes).2 := by
  intro q hq d hd h0
  have hspec := setupDofLoop_spec 0 nodes
  have hflat : d ∈ ((setupDofMapping nodes).1.map Prod.snd).flatten :=
    List.mem_flatten.mpr ⟨q.2, List.mem_map.mpr ⟨q, hq, rfl⟩, hd⟩
  rw [show (setupDofMapping nodes).1 = (setupDofLoop 0 nodes).1 from rfl,
    hspec.2.2] at hflat
  unfold dofSpecAssign at hflat
  obtain ⟨p, hp, hval⟩ := List.mem_map.mp hflat
  have hplt := List.mem_range.mp hp
  set masks := (nodes.map (fun p => p.2.dofs)).flatten with hmasks
  by_cases hb : masks.getD p false = true
  · rw [if_pos hb] at hval
    have htot : (setupDofMapping nodes).2 = masks.count true := by
      rw [show (setupDofMapping nodes).2 = (setupDofLoop 0 nodes).2 from rfl, hspec.1,
        hmasks, count_true_flatten, List.map_map]
      simp only [zero_add]
      rfl
    rw [htot, ← hval]
    simpa using count_take_lt masks p hplt hb
  · rw [if_neg hb] at hval
    rw [← hval] at h0
    exact absurd h0 (by norm_num)

/-- **C10, amended.**  The assembled lumped mass matrix is diagonal; its
entries are nonnegative whenever the model's densities and areas are (the §3
data-model invariants); and its trace equals the sum over elements of
`ρ·A·L/2` per **active translational DOF slot** of the element's nodes
(`lumpedTraceSpec`) — which is **three** times the total structural mass when
all translational DOFs are active, not twice as the claim stated. -/
theorem c10_lumped_mass (eng : Engine) (M : Mat)
    (hM : assembleGlobalMass eng (setupDofMapping eng.nodes).1
        (setupDofMapping eng.nodes).2 = .ok M) :
    (∀ i j, i ≠ j → mget M i j = 0) ∧
    ((∀ q ∈ eng.materials, 0 ≤ q.2.rho) → (∀ q ∈ eng.sections, 0 ≤ q.2.A) →
      ∀ i, 0 ≤ mget M i i) ∧
    lumpedTraceSpec eng (setupDofMapping eng.nodes).1 = .ok (traceM M) := by
  have hdm := setup_dof_lt eng.nodes
  have h := massFold_spec eng (setupDofMapping eng.nodes).1
    (setupDofMapping eng.nodes).2 hdm eng.elements
    (zerosMat (setupDofMapping eng.nodes).2 (setupDofMapping eng.nodes).2) 0
    (zerosMat_length _ _) (rowsSquare_zerosMat _)
  unfold assembleGlobalMass at hM
  rcases h with ⟨e, h1, h2⟩ | ⟨M2, t2, hm2, ht2, hl2, hs2, hd2, ho2, hn2⟩
  · rw [h1] at hM
    cases hM
  · rw [hm2] at hM
    cases hM
    refine ⟨?_, ?_, ?_⟩
    · intro i j hij
      rw [ho2 i j hij, mget_zerosMat]
    · intro hrho hA i
      exact hn2 hrho hA (fun i2 => by simp [mget_zerosMat]) i
    · unfold lumpedTraceSpec
      rw [ht2]
      congr 1
      rw [traceM_zerosMat] at hd2
      linarith

/-- A two-node truss of length 1 with `ρ = 1` and `A = 1` (total structural
mass `ρ·A·L = 1`), all DOFs active. -/
def c10Engine : Engine where
  nodes := [(0, { id := 0, x := 0, y := 0, z := 0 }),
            (1, { id := 1, x := 1, y := 0, z := 0 })]
  materials := [(1, { id := 1, name := "m", E := 1, nu := 0, rho := 1 })]
  sections := [(1, { id := 1, name := "s", A := 1, Ix := 0, Iy := 0, Iz := 0, J := 0 })]
  elements := [(1, { id := 1, type := .truss, nodes := [0, 1],
                     material_id := 1, section_id := some 1 })]
  loads := []
  constraints := []

/-- The assembled lumped mass matrix of `c10Engine`. -/
def c10M : Mat :=
  match assembleGlobalMass c10Engine (setupDofMapping c10Engine.nodes).1
      (setupDofMapping c10Engine.nodes).2 with
  | .ok M => M
  | .error _ => []

/-- **C10, counterexample.**  For the unit truss (total structural mass
`ρ·A·L = 1`) the trace of the lumped mass matrix is `3`, not `2·1` as the
claim asserts: the element mass is split onto **three** translation
directions per node (`1/2` each at 2 nodes × 3 slots). -/
theorem c10_trace_is_three_not_two :
    traceM c10M = 3 * ((1 : ℚ) * 1 * 1) ∧ traceM c10M ≠ 2 * ((1 : ℚ) * 1 * 1) := by
  constructor
  · with_unfolding_all decide
  · with_unfolding_all decide

/-- Witness for `c10_lumped_mass` at the concrete unit truss. -/
theorem c10_lumped_mass_witness :
    assembleGlobalMass c10Engine (setupDofMapping c10Engine.nodes).1
        (setupDofMapping c10Engine.nodes).2 = .ok c10M ∧
    mget c10M 0 1 = 0 ∧ 0 ≤ mget c10M 0 0 ∧
    lumpedTraceSpec c10Engine (setupDofMapping c10Engine.nodes).1 =
      .ok (traceM c10M) := by
  have hM : assembleGlobalMass c10Engine (setupDofMapping c10Engine.nodes).1
      (setupDofMapping c10Engine.nodes).2 = .ok c10M := by
    with_unfolding_all decide
  have h := c10_lumped_mass c10Engine c10M hM
  exact ⟨hM, h.1 0 1 (by decide), h.2.1 (by decide) (by decide) 0, h.2.2⟩

/-- A one-node model with no elements, the node fully constrained and loaded
axially: `solve_static` succeeds (`K = 0`, penalised `K_c = 10¹²·I₆`). -/
def c4wEngine : Engine where
  nodes := [(0, { id := 0, x := 0, y := 0, z := 0 })]
  materials := []
  sections := []
  elements := []
  loads := [{ id := 1, node_id := some 0, values := [1, 0, 0, 0, 0, 0] }]
  constraints := [{ id := 1, node_id := 0, dofs := [true, true, true, true, true, true] }]

/-- The successful static result on `c4wEngine`. -/
def c4wResult : StaticSuccess :=
  match solve_static c4wEngine with
  | .success r => r
  | _ => { displacements := [], reactions := [], element_forces := [], K_global := [],
           F_global := [], max_displacement := 0, total_dofs := 0 }

/-- The prelude state on `c4wEngine` (DOF map, assembled and penalised
operators). -/
def c4wPre : DofMap × Nat × Mat × Vec × Mat × Vec :=
  match staticPrelude c4wEngine with
  | .ok p => p
  | .error _ => ([], 0, [], [], [], [])

/-- The claim-side penalty pair list on `c4wEngine`. -/
def c4wPairs : List (Nat × ℚ) :=
  match constraintPairs c4wPre.1 c4wEngine.constraints with
  | .ok ps => ps
  | .error _ => []

/-- Witness for `c4_penalty_method` at the concrete model `c4wEngine`:
the solve succeeds, the stored reactions satisfy `K_global·u − F_global`, and
the penalised diagonal entry 0 gained exactly one penalty. -/
theorem c4_penalty_method_witness :
    solve_static c4wEngine = .success c4wResult ∧
    c4wResult.reactions =
      vSub (matVec c4wResult.K_global c4wResult.displacements) c4wResult.F_global ∧
    mget c4wPre.2.2.2.2.1 0 0 =
      mget c4wPre.2.2.1 0 0 +
        penalty * (((c4wPairs.filter (fun p => p.1 == 0)).length : ℚ)) := by
  have hs : solve_static c4wEngine = .success c4wResult := by
    with_unfolding_all rfl
  have hsq : rowsSquare c4wPre.2.2.1 := by
    with_unfolding_all decide
  have happ : applyConstraints c4wEngine.constraints c4wPre.1 c4wPre.2.2.1
      c4wPre.2.2.2.1 = .ok (c4wPre.2.2.2.2.1, c4wPre.2.2.2.2.2) := by
    with_unfolding_all rfl
  obtain ⟨ps, hps, _hoff, hdiag, _hF⟩ :=
    c4_penalty_method.1 c4wEngine.constraints c4wPre.1 c4wPre.2.2.1 c4wPre.2.2.2.1
      c4wPre.2.2.2.2.1 c4wPre.2.2.2.2.2 hsq happ
  have hps2 : constraintPairs c4wPre.1 c4wEngine.constraints = .ok c4wPairs := by
    with_unfolding_all rfl
  rw [hps] at hps2
  cases hps2
  exact ⟨hs, (c4_penalty_method.2 c4wEngine c4wResult hs).1, hdiag 0⟩

/-! ## Claim C8: the backtracking line search -/

/-- The Armijo sufficient-decrease test of `_line_search` at step size `a`,
relative to the current residual (claim-side wrapper of the source's
acceptance condition). -/
def armijoAccepted (kGlobal : Mat) (u du target : Vec) (a : ℚ) : Bool :=
  lineSearchCond kGlobal u du target a
    (normSq (vSub target (calculateInternalForce kGlobal u)))

theorem lineSearchLoop_spec (kGlobal : Mat) (u du target : Vec) (cur : ℚ) :
    ∀ (n : Nat) (alpha : ℚ),
      lineSearchLoop kGlobal u du target cur alpha n =
        (((List.range n).map (fun j => alpha * (1/2 : ℚ) ^ j)).find?
          (fun a => lineSearchCond kGlobal u du target a cur)).getD
          (alpha * (1/2 : ℚ) ^ n) := by
  intro n
  induction n with
  | zero =>
    intro alpha
    simp [lineSearchLoop]
  | succ m ih =>
    intro alpha
    rw [List.range_succ_eq_map, List.map_cons, List.map_map]
    have hcomp : ((fun j => alpha * (1/2 : ℚ) ^ j) ∘ Nat.succ) =
        (fun j => (alpha * (1/2 : ℚ)) * (1/2 : ℚ) ^ j) := by
      funext j
      simp only [Function.comp_apply]
      rw [pow_succ]
      ring
    rw [hcomp]
    unfold lineSearchLoop
    by_cases hc : lineSearchCond kGlobal u du target alpha cur = true
    · rw [if_pos hc]
      have hc2 : lineSearchCond kGlobal u du target (alpha * (1/2 : ℚ) ^ 0) cur = true := by
        simpa using hc
      simp only [List.find?]
      rw [hc2]
      simp
    · rw [if_neg hc]
      have hc2 : lineSearchCond kGlobal u du target (alpha * (1/2 : ℚ) ^ 0) cur = false := by
        simpa using hc
      simp only [List.find?]
      rw [hc2, ih (alpha * (1/2))]
      congr 1
      rw [pow_succ]
      ring

/-- **C8.**  `_line_search` starts from `α = 1` and tests the ten step sizes
`1, 1/2, …, 2⁻⁹` in order against the Armijo sufficient-decrease condition
`‖R(u+αΔu)‖ < (1 − c₁α)·‖R(u)‖` with `c₁ = 10⁻⁴`; it returns the first
accepted step size, and `2⁻¹⁰` (untested) when all ten trials fail. -/
theorem c8_line_search_backtracking (kGlobal : Mat) (u du target : Vec) :
    line_search kGlobal u du target =
      (((List.range 10).map (fun j => (1/2 : ℚ) ^ j)).find?
        (armijoAccepted kGlobal u du target)).getD ((1/2 : ℚ) ^ 10) := by
  unfold line_search armijoAccepted
  rw [lineSearchLoop_spec kGlobal u du target _ 10 1]
  have hmap : (List.range 10).map (fun j => (1 : ℚ) * (1/2 : ℚ) ^ j) =
      (List.range 10).map (fun j => (1/2 : ℚ) ^ j) := by
    apply List.map_congr_left
    intro j _
    ring
  rw [hmap, one_mul]

/-! ## Claim C9: the Newmark-β time step -/

theorem getD_vScale (c : ℚ) (x : Vec) {k : Nat} (h : k < x.length) :
    (vScale c x).getD k 0 = c * x.getD k 0 := by
  unfold vScale
  rw [List.getD_eq_getElem _ _ (by simpa using h), List.getElem_map,
    List.getD_eq_getElem _ _ h]

theorem getD_vAdd (x y : Vec) {k : Nat} (hx : k < x.length) (hy : k < y.length) :
    (vAdd x y).getD k 0 = x.getD k 0 + y.getD k 0 := by
  unfold vAdd
  have hk : k < (List.zipWith (· + ·) x y).length := by
    rw [List.length_zipWith]
    exact lt_min hx hy
  rw [List.getD_eq_getElem _ _ hk, List.getElem_zipWith,
    List.getD_eq_getElem _ _ hx, List.getD_eq_getElem _ _ hy]

theorem getD_vSub (x y : Vec) {k : Nat} (hx : k < x.length) (hy : k < y.length) :
    (vSub x y).getD k 0 = x.getD k 0 - y.getD k 0 := by
  unfold vSub
  have hk : k < (List.zipWith (· - ·) x y).length := by
    rw [List.length_zipWith]
    exact lt_min hx hy
  rw [List.getD_eq_getElem _ _ hk, List.getElem_zipWith,
    List.getD_eq_getElem _ _ hx, List.getD_eq_getElem _ _ hy]

theorem listGet_of_lt (l : List α) (k : Nat) (d : α) (h : k < l.length) :
    listGet l k = .ok (l.getD k d) := by
  unfold listGet
  rw [List.get?_eq_getElem? l k, List.getElem?_eq_getElem h,
    List.getD_eq_getElem _ _ h]

/-- Python's clamped history lookup `fh[min(i+1, len(fh)-1)]` on a nonempty
list equals the `getD` at the ℕ-clamped index. -/
theorem pyIndex_clamp (fh : List α) (d : α) (hne : fh ≠ []) (i : Nat) :
    pyIndex fh (min ((i : Int) + 1) ((fh.length : Int) - 1)) =
      .ok (fh.getD (min (i + 1) (fh.length - 1)) d) := by
  have hlen : 1 ≤ fh.length := List.length_pos.mpr hne
  have hj0 : 0 ≤ min ((i : Int) + 1) ((fh.length : Int) - 1) := by
    apply le_min <;> omega
  have hjlt : min ((i : Int) + 1) ((fh.length : Int) - 1) < (fh.length : Int) := by
    calc min ((i : Int) + 1) ((fh.length : Int) - 1) ≤ (fh.length : Int) - 1 :=
          min_le_right _ _
      _ < (fh.length : Int) := by omega
  have htoNat : (min ((i : Int) + 1) ((fh.length : Int) - 1)).toNat =
      min (i + 1) (fh.length - 1) := by
    rcases le_total ((i : Int) + 1) ((fh.length : Int) - 1) with h | h
    · rw [min_eq_left h, min_eq_left (by omega)]
      omega
    · rw [min_eq_right h, min_eq_right (by omega)]
      omega
  unfold pyIndex
  have hnneg : ¬(min ((i : Int) + 1) ((fh.length : Int) - 1) < 0) := not_lt.mpr hj0
  rw [if_neg hnneg, if_pos ⟨hj0, hjlt⟩, htoNat]
  exact listGet_of_lt fh _ d (by omega)

/-- **C9.**  Each Newmark-β step: the integration constants are exactly
`a₀ = 1/(β·Δt²)`, `a₁ = γ/(β·Δt)`, `a₂ = 1/(β·Δt)`, `a₃ = 1/(2β)−1`,
`a₄ = γ/β−1`, `a₅ = (Δt/2)(γ/β−2)`; the integration forms
`K* = K + a₀M + a₁C` once and iterates the step with that fixed matrix; the
step looks up the force history at the index clamped to the last entry,
solves `K*·u_{i+1} = F*` with
`F* = F_{i+1} + M(a₀u+a₂v+a₃a) + C(a₁u+a₄v+a₅a)`, and then updates
`a_{i+1} = a₀(u_{i+1}−u_i) − a₂v_i − a₃a_i` and
`v_{i+1} = v_i + Δt((1−γ)a_i + γa_{i+1})`, entrywise. -/
theorem c9_newmark_step_equations (Mm Cm Km Keff : Mat) (beta gamma dt : ℚ)
    (fh : List Vec) (i : Nat) (u v a uN vN aN : Vec)
    (hfh : fh ≠ [])
    (hstep : newmarkStep Mm Cm Keff beta gamma dt fh i u v a = .ok (uN, vN, aN)) :
    (nmA0 beta dt = 1 / (beta * dt ^ 2) ∧
     nmA1 gamma beta dt = gamma / (beta * dt) ∧
     nmA2 beta dt = 1 / (beta * dt) ∧
     nmA3 beta = 1 / (2 * beta) - 1 ∧
     nmA4 gamma beta = gamma / beta - 1 ∧
     nmA5 dt gamma beta = dt / 2 * (gamma / beta - 2)) ∧
    (beta * dt ^ 2 ≠ 0 → ∀ (n : Nat) (u0 v0 a0 : Vec),
      newmarkIntegration Km Mm Cm fh dt beta gamma n u0 v0 a0 =
        newmarkLoop Mm Cm (nmKeff Km Mm Cm beta gamma dt) beta gamma dt fh 0 n
          u0 v0 a0 [u0] [v0] [a0]) ∧
    matVec Keff uN =
      nmEffForce Mm Cm beta gamma dt (fh.getD (min (i + 1) (fh.length - 1)) [])
        u v a ∧
    (∀ k, k < u.length → k < v.length → k < a.length → k < uN.length →
      aN.getD k 0 = nmA0 beta dt * (uN.getD k 0 - u.getD k 0) -
        nmA2 beta dt * v.getD k 0 - nmA3 beta * a.getD k 0) ∧
    (∀ k, k < v.length → k < a.length → k < aN.length →
      vN.getD k 0 = v.getD k 0 + dt * ((1 - gamma) * a.getD k 0 +
        gamma * aN.getD k 0)) := by
  unfold newmarkStep at hstep
  rw [pyIndex_clamp fh [] hfh i] at hstep
  simp only [exc_bind_ok] at hstep
  cases hsol : spsolve Keff (nmEffForce Mm Cm beta gamma dt
      (fh.getD (min (i + 1) (fh.length - 1)) []) u v a) with
  | error e =>
    rw [hsol] at hstep
    cases hstep
  | ok uSol =>
    rw [hsol] at hstep
    simp only [exc_bind_ok, exc_pure_eq_ok, Except.ok.injEq, Prod.mk.injEq] at hstep
    obtain ⟨hu, hv, ha⟩ := hstep
    subst hu
    subst hv
    subst ha
    refine ⟨⟨rfl, rfl, rfl, rfl, rfl, rfl⟩, ?_, ?_, ?_, ?_⟩
    · intro hnz n u0 v0 a0
      unfold newmarkIntegration
      rw [if_neg hnz]
    · exact spsolve_solves Keff _ uSol hsol
    · intro k hku hkv hka hkuN
      rw [getD_vSub _ _ (by simp [vSub_length, vScale_length]; omega)
          (by simp [vScale_length]; omega),
        getD_vSub _ _ (by simp [vSub_length, vScale_length]; omega)
          (by simp [vScale_length]; omega),
        getD_vScale _ _ (by simp [vSub_length]; omega),
        getD_vSub _ _ hkuN hku,
        getD_vScale _ _ hkv, getD_vScale _ _ hka]
    · intro k hkv hka hkaN
      rw [getD_vAdd _ _ hkv
          (by simp only [vScale_length, vAdd_length, vSub_length] at *; omega),
        getD_vScale _ _
          (by simp only [vScale_length, vAdd_length, vSub_length] at *; omega),
        getD_vAdd _ _ (by simp [vScale_length]; omega)
          (by simp only [vScale_length, vSub_length] at *; omega),
        getD_vScale _ _ hka, getD_vScale _ _ hkaN]

/-- Witness for `c9_newmark_step_equations` on a one-DOF system
(`M = 1`, `C = 0`, `K = 1`, `Δt = 1`, `β = 1/4`, `γ = 1/2`, `K* = 5`):
the step solves `5·u₁ = 10`, giving `u₁ = 2`, `a₁ = 8`, `v₁ = 4`. -/
theorem c9_newmark_step_witness :
    newmarkStep [[1]] [[0]] [[5]] (1/4) (1/2) 1 [[0], [10]] 0 [0] [0] [0] =
      .ok ([2], [4], [8]) ∧
    matVec [[5]] [2] =
      nmEffForce [[1]] [[0]] (1/4) (1/2) 1
        (([[0], [10]] : List Vec).getD (min (0 + 1) (([[0], [10]] : List Vec).length - 1)) [])
        [0] [0] [0] ∧
    ([8] : Vec).getD 0 0 =
      nmA0 (1/4) 1 * (([2] : Vec).getD 0 0 - ([0] : Vec).getD 0 0) -
        nmA2 (1/4) 1 * ([0] : Vec).getD 0 0 - nmA3 (1/4) * ([0] : Vec).getD 0 0 ∧
    ([4] : Vec).getD 0 0 =
      ([0] : Vec).getD 0 0 + 1 * ((1 - 1/2) * ([0] : Vec).getD 0 0 +
        1/2 * ([8] : Vec).getD 0 0) := by
  have hstep : newmarkStep [[1]] [[0]] [[5]] (1/4) (1/2) 1 [[0], [10]] 0 [0] [0] [0] =
      .ok ([2], [4], [8]) := by
    with_unfolding_all decide
  have h := c9_newmark_step_equations [[1]] [[0]] [[1]] [[5]] (1/4) (1/2) 1
    [[0], [10]] 0 [0] [0] [0] [2] [4] [8] (by decide) hstep
  exact ⟨hstep, h.2.2.1,
    h.2.2.2.1 0 (by decide) (by decide) (by decide) (by decide),
    h.2.2.2.2 0 (by decide) (by decide) (by decide)⟩

/-! ## Claim C7: the nonlinear driver with a linear tangent stiffness -/

/-- Whether the Newton loop result is the `converged` constructor. -/
def NewtonRes.isConverged : NewtonRes → Bool
  | .converged _ => true
  | _ => false

theorem modAt_id (l : Vec) (i : Nat) : modAt l i (fun x => x) = l := by
  induction l generalizing i with
  | nil => rfl
  | cons x xs ih =>
    cases i with
    | zero => rfl
    | succ m =>
      show x :: modAt xs m _ = x :: xs
      rw [ih m]

theorem vecAddAt_zero (v : Vec) (d : Nat) : vecAddAt v d 0 = v := by
  unfold vecAddAt
  rw [show (fun x : ℚ => x + 0) = (fun x : ℚ => x) from funext fun x => add_zero x]
  exact modAt_id v d

/-- A constraint whose prescribed values are all zero leaves the force vector
untouched through the penalty fold (`F[d] += penalty·0`). -/
theorem foldlM_constraintStep_snd (c : Constraint)
    (hv : c.values = List.replicate 6 0) :
    ∀ (ts : List (Nat × Bool × Int)) (K : Mat) (F : Vec) (P : Mat × Vec),
      ts.foldlM (constraintStep c) (K, F) = .ok P → P.2 = F := by
  intro ts
  induction ts with
  | nil =>
    intro K F P h
    simp only [List.foldlM_nil, exc_pure_eq_ok] at h
    cases h
    rfl
  | cons t ts ih =>
    intro K F P h
    rw [List.foldlM_cons] at h
    by_cases hcnd : t.2.1 = true ∧ 0 ≤ t.2.2
    · cases hg : listGet c.values t.1 with
      | error e =>
        rw [constraintStep_error c t K F e hcnd hg] at h
        simp at h
      | ok v =>
        have hv0 : v = 0 := by
          have hm := listGet_mem hg
          rw [hv] at hm
          exact List.eq_of_mem_replicate hm
        subst hv0
        rw [constraintStep_ok c t K F 0 hcnd hg] at h
        by_cases hb : t.2.2.toNat < K.length ∧ t.2.2.toNat < F.length
        · rw [if_pos hb, exc_bind_ok] at h
          rw [mul_zero, vecAddAt_zero] at h
          exact ih _ _ _ h
        · rw [if_neg hb] at h
          simp at h
    · rw [constraintStep_skip c t K F hcnd, exc_bind_ok] at h
      exact ih _ _ _ h

/-- `_apply_constraints_nonlinear` with all-zero prescribed values returns the
residual unchanged. -/
theorem applyConstraintsNonlinear_snd (dm : DofMap) :
    ∀ (cs : List Constraint), (∀ c ∈ cs, c.values = List.replicate 6 0) →
      ∀ (K : Mat) (F : Vec) (P : Mat × Vec),
        applyConstraintsNonlinear cs dm K F = .ok P → P.2 = F := by
  intro cs
  induction cs with
  | nil =>
    intro _ K F P h
    unfold applyConstraintsNonlinear at h
    simp only [List.foldlM_nil, exc_pure_eq_ok] at h
    cases h
    rfl
  | cons c cs ih =>
    intro hv K F P h
    unfold applyConstraintsNonlinear at h
    rw [List.foldlM_cons] at h
    cases hd : dictGet dm c.node_id with
    | error e =>
      rw [hd] at h
      simp at h
    | ok nd =>
      rw [hd] at h
      simp only [exc_bind_ok] at h
      cases hone : applyOneConstraint c nd (K, F) with
      | error e =>
        rw [hone] at h
        simp at h
      | ok Q =>
        rw [hone] at h
        simp only [exc_bind_ok] at h
        have hQ : Q.2 = F :=
          foldlM_constraintStep_snd c (hv c (List.mem_cons_self c cs))
            ((c.dofs.zip nd).enum) K F Q
            (by unfold applyOneConstraint at hone; exact hone)
        have hrest : applyConstraintsNonlinear cs dm Q.1 Q.2 = .ok P := by
          unfold applyConstraintsNonlinear
          exact h
        rw [ih (fun c2 hc2 => hv c2 (List.mem_cons_of_mem c hc2)) Q.1 Q.2 P hrest,
          hQ]

theorem normSq_cons (x : ℚ) (xs : Vec) : normSq (x :: xs) = x * x + normSq xs := by
  simp [normSq]

theorem normSq_append (a b : Vec) : normSq (a ++ b) = normSq a + normSq b := by
  simp [normSq]

theorem sq_getD_le_normSq (v : Vec) (k : Nat) (h : k < v.length) :
    v.getD k 0 * v.getD k 0 ≤ normSq v := by
  induction v generalizing k with
  | nil => simp at h
  | cons x xs ih =>
    cases k with
    | zero =>
      rw [List.getD_cons_zero, normSq_cons]
      nlinarith [normSq_nonneg xs]
    | succ m =>
      rw [List.getD_cons_succ, normSq_cons]
      have hm : m < xs.length := by simpa using h
      nlinarith [ih m hm, mul_self_nonneg x]

theorem getD_take (v : Vec) (n k : Nat) (h : k < n) :
    (v.take n).getD k 0 = v.getD k 0 := by
  induction v generalizing n k with
  | nil => simp
  | cons x xs ih =>
    cases n with
    | zero => omega
    | succ m =>
      cases k with
      | zero => simp
      | succ j =>
        simp only [List.take_succ_cons, List.getD_cons_succ]
        exact ih m j (by omega)

theorem getD_drop (v : Vec) (n k : Nat) :
    (v.drop n).getD k 0 = v.getD (n + k) 0 := by
  induction v generalizing n with
  | nil => simp
  | cons x xs ih =>
    cases n with
    | zero => simp
    | succ m =>
      rw [List.drop_succ_cons, ih m]
      have hnk : m + 1 + k = (m + k) + 1 := by omega
      rw [hnk, List.getD_cons_succ]

/-- Two distinct entries bound the squared norm from below. -/
theorem normSq_two_entries (v : Vec) (i j : Nat) (hij : i < j) (hj : j < v.length) :
    v.getD i 0 * v.getD i 0 + v.getD j 0 * v.getD j 0 ≤ normSq v := by
  have hi : i < v.length := by omega
  have hsplit : normSq v = normSq (v.take (i+1)) + normSq (v.drop (i+1)) := by
    conv_lhs => rw [← List.take_append_drop (i+1) v]
    rw [normSq_append]
  have h1 : (v.take (i+1)).getD i 0 = v.getD i 0 := getD_take v (i+1) i (by omega)
  have h2 : (v.drop (i+1)).getD (j - (i+1)) 0 = v.getD j 0 := by
    rw [getD_drop]
    congr 1
    omega
  have hb1 : i < (v.take (i+1)).length := by
    rw [List.length_take]
    omega
  have hb2 : j - (i+1) < (v.drop (i+1)).length := by
    rw [List.length_drop]
    omega
  have l1 := sq_getD_le_normSq _ _ hb1
  have l2 := sq_getD_le_normSq _ _ hb2
  rw [h1] at l1
  rw [h2] at l2
  rw [hsplit]
  exact add_le_add l1 l2

/-- Cantilever beam with a linear element (so the tangent stiffness equals the
linear stiffness and the internal force is `K·u`): node 0 fully constrained,
node 1 free, axial load `F_x = 1` on node 1 (`E = 1`, `ν = 0`, `A = Iy = Iz = 1`,
`J = 2`, length 1). -/
def c7Engine : Engine where
  nodes := [(0, { id := 0, x := 0, y := 0, z := 0 }),
            (1, { id := 1, x := 1, y := 0, z := 0 })]
  materials := [(1, { id := 1, name := "m", E := 1, nu := 0, rho := 1 })]
  sections := [(1, { id := 1, name := "s", A := 1, Ix := 1, Iy := 1, Iz := 1, J := 2 })]
  elements := [(1, { id := 1, type := .beam, nodes := [0, 1],
                     material_id := 1, section_id := some 1 })]
  loads := [{ id := 1, node_id := some 1, values := [1, 0, 0, 0, 0, 0] }]
  constraints := [{ id := 1, node_id := 0,
                    dofs := [true, true, true, true, true, true] }]

/-- The DOF map of the cantilever model (12 active DOFs). -/
def c7dm : DofMap × Nat := setupDofMapping c7Engine.nodes

/-- Its assembled 12×12 stiffness. -/
def c7K : Mat :=
  match assembleGlobalStiffness c7Engine c7dm.1 c7dm.2 with
  | .ok K => K
  | .error _ => []

/-- Its assembled force vector (`F_x = 1` at global DOF 6). -/
def c7F : Vec :=
  match assembleGlobalForce c7Engine c7dm.1 c7dm.2 with
  | .ok F => F
  | .error _ => []

theorem c7K_ok : assembleGlobalStiffness c7Engine c7dm.1 c7dm.2 = .ok c7K := by
  with_unfolding_all rfl

theorem c7F_ok : assembleGlobalForce c7Engine c7dm.1 c7dm.2 = .ok c7F := by
  with_unfolding_all rfl

theorem c7K_len : c7K.length = 12 := by
  with_unfolding_all rfl

theorem c7row_facts :
    (c7K.getD 0 []).length = 12 ∧ (c7K.getD 6 []).length = 12 ∧
      vAdd (c7K.getD 0 []) (c7K.getD 6 []) = zerosVec 12 := by
  with_unfolding_all decide

theorem c7F_facts : c7F.length = 12 ∧ c7F.getD 0 0 = 0 ∧ c7F.getD 6 0 = 1 := by
  with_unfolding_all decide

/-- Rows 0 and 6 of the cantilever stiffness sum to zero (the axial rigid-body
direction), so the axial components of `K·u` at the two nodes cancel for every
displacement vector. -/
theorem c7_matVec_cancel (u : Vec) :
    (matVec c7K u).getD 0 0 + (matVec c7K u).getD 6 0 = 0 := by
  have hlen : (matVec c7K u).length = 12 := by
    unfold matVec
    rw [List.length_map, c7K_len]
  have hb0 : 0 < c7K.length := by rw [c7K_len]; omega
  have hb6 : 6 < c7K.length := by rw [c7K_len]; omega
  have h0 : (matVec c7K u).getD 0 0 = dot (c7K.getD 0 []) u := by
    rw [List.getD_eq_getElem _ _ (by rw [hlen]; omega)]
    unfold matVec
    rw [List.getElem_map]
    congr 1
    exact (List.getD_eq_getElem c7K _ hb0).symm
  have h6 : (matVec c7K u).getD 6 0 = dot (c7K.getD 6 []) u := by
    rw [List.getD_eq_getElem _ _ (by rw [hlen]; omega)]
    unfold matVec
    rw [List.getElem_map]
    congr 1
    exact (List.getD_eq_getElem c7K _ hb6).symm
  rw [h0, h6,
    dot_add_left _ _ u (by rw [c7row_facts.1, c7row_facts.2.1]),
    c7row_facts.2.2, dot_zeros]

/-- Whatever the current Newton iterate, the residual `λF − K·u` keeps a fixed
gap at the axial DOF pair, so its squared norm is at least `1/200`. -/
theorem c7_residual_large (t u : Vec) (ht : t.length = 12)
    (hs : t.getD 0 0 + t.getD 6 0 = 1/10) :
    1/200 ≤ normSq (vSub t (matVec c7K u)) := by
  have hKlen : (matVec c7K u).length = 12 := by
    unfold matVec
    rw [List.length_map, c7K_len]
  have hRlen : (vSub t (matVec c7K u)).length = 12 := by
    rw [vSub_length, ht, hKlen, Nat.min_self]
  have h0 : (vSub t (matVec c7K u)).getD 0 0 =
      t.getD 0 0 - (matVec c7K u).getD 0 0 :=
    getD_vSub t _ (by omega) (by omega)
  have h6 : (vSub t (matVec c7K u)).getD 6 0 =
      t.getD 6 0 - (matVec c7K u).getD 6 0 :=
    getD_vSub t _ (by omega) (by omega)
  have hcan := c7_matVec_cancel u
  have hsum : (vSub t (matVec c7K u)).getD 0 0 +
      (vSub t (matVec c7K u)).getD 6 0 = 1/10 := by
    rw [h0, h6]
    linarith
  have h2 := normSq_two_entries (vSub t (matVec c7K u)) 0 6 (by omega) (by omega)
  nlinarith [h2, hsum,
    sq_nonneg ((vSub t (matVec c7K u)).getD 0 0 - (vSub t (matVec c7K u)).getD 6 0)]

/-- On the cantilever model, the Newton loop of the first load step never
satisfies its convergence test, for any iteration budget and any iterate. -/
theorem c7_newton_never_converges (t : Vec) (ht : t.length = 12)
    (hs : t.getD 0 0 + t.getD 6 0 = 1/10) (ls : Bool) :
    ∀ (fuel : Nat) (u : Vec),
      (newtonIter c7Engine.constraints c7dm.1 c7K t ls (1/1000000) fuel
        u).isConverged = false := by
  intro fuel
  induction fuel with
  | zero => intro u; rfl
  | succ n ih =>
    intro u
    simp only [newtonIter]
    dsimp only [updateTangentStiffness, calculateInternalForce]
    cases hA : applyConstraintsNonlinear c7Engine.constraints c7dm.1 c7K
        (vSub t (matVec c7K u)) with
    | error e => rfl
    | ok P =>
      have hP : P.2 = vSub t (matVec c7K u) :=
        applyConstraintsNonlinear_snd c7dm.1 c7Engine.constraints
          (by
            intro c hc
            have hc2 := List.mem_singleton.mp hc
            subst hc2
            rfl)
          c7K _ P hA
      have hbig := c7_residual_large t u ht hs
      rw [← hP] at hbig
      have hno : ¬(0 < (1/1000000 : ℚ) ∧ normSq P.2 < (1/1000000 : ℚ) ^ 2) := by
        rintro ⟨-, hlt⟩
        have hsmall : ((1 : ℚ)/1000000) ^ 2 < 1/200 := by norm_num
        linarith
      dsimp only
      rw [if_neg hno]
      cases hS : spsolve P.1 P.2 with
      | error e => rfl
      | ok du => exact ih _

/-- One step of the load loop on the cantilever model, with the default
options reduced (unfolding holds by iota reduction alone, so the Newton
computation itself is never forced). -/
theorem loadStepLoop_succ_c7 (steps : Nat) (lf : ℚ) (u : Vec)
    (curve : List (ℚ × ℚ)) :
    loadStepLoop c7Engine.constraints c7dm.1 c7K c7F {} (steps + 1) lf u curve =
      match newtonIter c7Engine.constraints c7dm.1 c7K
          (vScale (lf + 1 / ((10 : Nat) : ℚ)) c7F) true (1/1000000) 50 u with
      | .converged u2 =>
        match maxAbs u2 with
        | .error e => .failure (pyStr e)
        | .ok m => loadStepLoop c7Engine.constraints c7dm.1 c7K c7F {} steps
            (lf + 1 / ((10 : Nat) : ℚ)) u2
            (curve ++ [(lf + 1 / ((10 : Nat) : ℚ), m)])
      | .exhausted _ =>
        .failure ("No convergence in " ++ toString (50 : Nat) ++ " iterations")
      | .solverFailed e => .failure ("Solver failed: " ++ pyStr e)
      | .raisedInner e => .failure (pyStr e) := rfl

/-- The first load step of the nonlinear driver on the cantilever model fails
(no Newton convergence), so the driver returns an error dict. -/
theorem c7_driver_fails :
    (solve_nonlinear_static c7Engine none).isFailure = true := by
  unfold solve_nonlinear_static
  dsimp only [Option.getD]
  rw [show setupDofMapping c7Engine.nodes = c7dm from rfl, c7K_ok]
  simp only [exc_bind_ok]
  rw [c7F_ok]
  simp only [exc_bind_ok]
  rw [if_neg (by decide : ¬(({} : NonlinearOptions).load_steps = 0))]
  simp only [exc_pure_eq_ok]
  rw [show c7dm.2 = 12 from rfl]
  show (loadStepLoop c7Engine.constraints c7dm.1 c7K c7F {} (9 + 1) 0
    (zerosVec 12) []).isFailure = true
  rw [loadStepLoop_succ_c7]
  have ht : (vScale (0 + 1 / ((10 : Nat) : ℚ)) c7F).length = 12 := by
    rw [vScale_length]
    exact c7F_facts.1
  have hs : (vScale (0 + 1 / ((10 : Nat) : ℚ)) c7F).getD 0 0 +
      (vScale (0 + 1 / ((10 : Nat) : ℚ)) c7F).getD 6 0 = 1/10 := by
    have hl := c7F_facts.1
    rw [getD_vScale _ _ (by omega), getD_vScale _ _ (by omega),
      c7F_facts.2.1, c7F_facts.2.2]
    push_cast
    norm_num
  have hnc := c7_newton_never_converges (vScale (0 + 1 / ((10 : Nat) : ℚ)) c7F)
    ht hs true 50 (zerosVec 12)
  cases hN : newtonIter c7Engine.constraints c7dm.1 c7K
      (vScale (0 + 1 / ((10 : Nat) : ℚ)) c7F) true (1/1000000) 50
      (zerosVec 12) with
  | converged u2 =>
    rw [hN] at hnc
    simp [NewtonRes.isConverged] at hnc
  | exhausted u2 => rfl
  | solverFailed e => rfl
  | raisedInner e => rfl

set_option maxRecDepth 1000000 in
/-- **C7.**  The claim fails, and the defect is in the code: with a linear
tangent stiffness (`K_T = K`, `f_int(u) = K·u`) the nonlinear driver's Newton
convergence test measures the residual `λF − K·u` with the *unconstrained* `K`
and no penalty reaction terms, so on the cantilever model the axial residual
components at the two nodes always sum to `λ·F_x` and the squared residual
norm never drops below `1/200` — no iteration budget ever converges (in
particular not the claimed ≤ 2 iterations per load step).  The driver returns
the no-convergence error dict at λ = 1/10, while `solve_static` succeeds on
the same model; the claimed agreement with the linear solution at λ = 1 is
therefore impossible. -/
theorem c7_nonlinear_driver_never_converges :
    (∀ (fuel : Nat) (u : Vec),
      (newtonIter c7Engine.constraints c7dm.1 c7K (vScale (1/10) c7F) true
        (1/1000000) fuel u).isConverged = false) ∧
    (solve_nonlinear_static c7Engine none).isFailure = true ∧
    (solve_static c7Engine).isSuccess = true := by
  refine ⟨?_, c7_driver_fails, ?_⟩
  · intro fuel u
    refine c7_newton_never_converges (vScale (1/10) c7F) ?_ ?_ true fuel u
    · rw [vScale_length]
      exact c7F_facts.1
    · have hl := c7F_facts.1
      rw [getD_vScale _ _ (by omega), getD_vScale _ _ (by omega),
        c7F_facts.2.1, c7F_facts.2.2]
      norm_num
  · with_unfolding_all decide

end Stru


